import Mathlib

/-!
Shallow embedding of excerpts of the bartvdbraak/blender repository:

* `RenderGraph`: the Vulkan buffer-to-image copy render-graph node
  (`source/blender/gpu/vulkan/render_graph/nodes/vk_copy_buffer_to_image_node.hh`).
* `Ply`: the PLY mesh-export entry point
  (`source/blender/io/ply/exporter/ply_export.cc`).
* `GreasePencil`: the grease-pencil stroke-editing operators that follow the PLY
  exporter in the same excerpt file.

Machine integers are modelled as `Nat`/`Int` (no overflow is relevant to the
verified properties); fallible steps return `Option`; the mutating C++ routines
are modelled as state-passing functions.
-/

namespace RenderGraph

-- Vulkan enumerator values, as in the Vulkan headers.
def VK_ACCESS_TRANSFER_READ_BIT : Nat := 2048
def VK_ACCESS_TRANSFER_WRITE_BIT : Nat := 4096
def VK_IMAGE_LAYOUT_UNDEFINED : Nat := 0
def VK_IMAGE_LAYOUT_TRANSFER_DST_OPTIMAL : Nat := 7
def VK_PIPELINE_STAGE_TRANSFER_BIT : Nat := 4096

structure VkImageSubresourceLayers where
  aspectMask : Nat
  mipLevel : Nat
  baseArrayLayer : Nat
  layerCount : Nat
deriving DecidableEq, Repr

structure VkOffset3D where
  x : Int
  y : Int
  z : Int
deriving DecidableEq, Repr

structure VkExtent3D where
  width : Nat
  height : Nat
  depth : Nat
deriving DecidableEq, Repr

structure VkBufferImageCopy where
  bufferOffset : Nat
  bufferRowLength : Nat
  bufferImageHeight : Nat
  imageSubresource : VkImageSubresourceLayers
  imageOffset : VkOffset3D
  imageExtent : VkExtent3D
deriving DecidableEq, Repr

/-- `VKCopyBufferToImageData`: information stored inside the render graph node.
Vulkan handles (`VkBuffer`, `VkImage`) are modelled as `Nat`. -/
structure VKCopyBufferToImageData where
  src_buffer : Nat
  dst_image : Nat
  region : VkBufferImageCopy
deriving DecidableEq, Repr

structure ResourceWithStamp where
  handle : Nat
  stamp : Nat
deriving DecidableEq, Repr

/-- A link appended to `VKRenderGraphNodeLinks.inputs`/`outputs`. The C++
aggregate has fields resource, access flags, image layout and image aspect; an
append that omits the aspect leaves it zero-initialized. -/
structure VKRenderGraphLink where
  resource : ResourceWithStamp
  vk_access_flags : Nat
  vk_image_layout : Nat
  vk_image_aspect : Nat
deriving DecidableEq, Repr

structure VKRenderGraphNodeLinks where
  inputs : List VKRenderGraphLink
  outputs : List VKRenderGraphLink
deriving DecidableEq, Repr

/-- Modelled from the spec: `VKResourceStateTracker` is only referenced by the
excerpt (the spec calls the scheduler/resource-state tracker "referenced but not
defined in the provided source").  The render graph is described as a
"dependency-tracked command-recording graph"; we model the tracker as per-handle
version stamps.  `get_buffer` reads the buffer's current stamp without changing
it; `get_image_and_increase_stamp` reads the image's current stamp and then
increases the stored stamp. -/
structure VKResourceStateTracker where
  buffer_stamps : Nat → Nat
  image_stamps : Nat → Nat

def get_buffer (resources : VKResourceStateTracker) (h : Nat) : ResourceWithStamp :=
  ⟨h, resources.buffer_stamps h⟩

def get_image_and_increase_stamp (resources : VKResourceStateTracker) (h : Nat) :
    ResourceWithStamp × VKResourceStateTracker :=
  (⟨h, resources.image_stamps h⟩,
   { resources with
     image_stamps := fun x =>
       if x = h then resources.image_stamps h + 1 else resources.image_stamps x })

/-- `VKCopyBufferToImageNode::build_links`: extract read/write resource
dependencies from `create_info` and add them to `node_links`.  The tracker is
threaded explicitly because `get_image_and_increase_stamp` mutates it. -/
def build_links (resources : VKResourceStateTracker)
    (node_links : VKRenderGraphNodeLinks) (create_info : VKCopyBufferToImageData) :
    VKRenderGraphNodeLinks × VKResourceStateTracker :=
  let src_resource := get_buffer resources create_info.src_buffer
  let dst := get_image_and_increase_stamp resources create_info.dst_image
  ({ inputs := node_links.inputs ++
       [⟨src_resource, VK_ACCESS_TRANSFER_READ_BIT, VK_IMAGE_LAYOUT_UNDEFINED, 0⟩],
     outputs := node_links.outputs ++
       [⟨dst.1, VK_ACCESS_TRANSFER_WRITE_BIT, VK_IMAGE_LAYOUT_TRANSFER_DST_OPTIMAL,
         create_info.region.imageSubresource.aspectMask⟩] },
   dst.2)

/-- A command recorded through `VKCommandBufferInterface`. -/
inductive VKCommand where
  | copy_buffer_to_image (src_buffer : Nat) (dst_image : Nat) (dst_image_layout : Nat)
      (region_count : Nat) (regions : List VkBufferImageCopy)
deriving DecidableEq, Repr

/-- `VKCopyBufferToImageNode::build_commands`: build the commands and add them
to the command buffer. -/
def build_commands (command_buffer : List VKCommand) (data : VKCopyBufferToImageData) :
    List VKCommand :=
  command_buffer ++
    [VKCommand.copy_buffer_to_image data.src_buffer data.dst_image
      VK_IMAGE_LAYOUT_TRANSFER_DST_OPTIMAL 1 [data.region]]

/-- `VKCopyBufferToImageNode::set_node_data`: the node data is the create info. -/
def set_node_data (create_info : VKCopyBufferToImageData) : VKCopyBufferToImageData :=
  create_info

end RenderGraph

namespace Ply

/-- One observable action performed on the export file buffer.  The bodies of
the writer routines live outside the excerpt; only the order in which
`exporter_main` invokes them is modelled, as a trace of events. -/
inductive PlyWriteEvent where
  | header
  | vertices
  | faces
  | edges
  | close_file
deriving DecidableEq, Repr

inductive FileBufferKind where
  | ascii
  | binary
deriving DecidableEq, Repr

structure FileBuffer where
  kind : FileBufferKind
  filepath : String
  events : List PlyWriteEvent
deriving DecidableEq, Repr

structure PLYExportParams where
  ascii_format : Bool
  filepath : String
deriving DecidableEq, Repr

def write_header (b : FileBuffer) : FileBuffer :=
  { b with events := b.events ++ [PlyWriteEvent.header] }

def write_vertices (b : FileBuffer) : FileBuffer :=
  { b with events := b.events ++ [PlyWriteEvent.vertices] }

def write_faces (b : FileBuffer) : FileBuffer :=
  { b with events := b.events ++ [PlyWriteEvent.faces] }

def write_edges (b : FileBuffer) : FileBuffer :=
  { b with events := b.events ++ [PlyWriteEvent.edges] }

def close_file (b : FileBuffer) : FileBuffer :=
  { b with events := b.events ++ [PlyWriteEvent.close_file] }

/-- `blender::io::ply::exporter_main` (the overload taking the export
parameters): select the file-buffer kind from `ascii_format`, then write the
header, vertices, faces and edges, and close the file. -/
def exporter_main (export_params : PLYExportParams) : FileBuffer :=
  let buffer : FileBuffer :=
    if export_params.ascii_format then
      { kind := FileBufferKind.ascii, filepath := export_params.filepath, events := [] }
    else
      { kind := FileBufferKind.binary, filepath := export_params.filepath, events := [] }
  close_file (write_edges (write_faces (write_vertices (write_header buffer))))

end Ply

/-- C1: `build_links` declares exactly two resource dependencies: it appends the
source buffer to `node_links.inputs` as a read with access
`VK_ACCESS_TRANSFER_READ_BIT`, appends the destination image to
`node_links.outputs` as a write with access `VK_ACCESS_TRANSFER_WRITE_BIT`,
layout `VK_IMAGE_LAYOUT_TRANSFER_DST_OPTIMAL` and the aspect mask taken from
`create_info.region.imageSubresource`, and it increases the image's version
stamp while leaving every buffer stamp unchanged. -/
theorem C1_build_links_dependencies
    (resources : RenderGraph.VKResourceStateTracker)
    (node_links : RenderGraph.VKRenderGraphNodeLinks)
    (create_info : RenderGraph.VKCopyBufferToImageData) :
    (RenderGraph.build_links resources node_links create_info).1.inputs =
      node_links.inputs ++
        [⟨⟨create_info.src_buffer, resources.buffer_stamps create_info.src_buffer⟩,
          RenderGraph.VK_ACCESS_TRANSFER_READ_BIT,
          RenderGraph.VK_IMAGE_LAYOUT_UNDEFINED, 0⟩] ∧
    (RenderGraph.build_links resources node_links create_info).1.outputs =
      node_links.outputs ++
        [⟨⟨create_info.dst_image, resources.image_stamps create_info.dst_image⟩,
          RenderGraph.VK_ACCESS_TRANSFER_WRITE_BIT,
          RenderGraph.VK_IMAGE_LAYOUT_TRANSFER_DST_OPTIMAL,
          create_info.region.imageSubresource.aspectMask⟩] ∧
    (RenderGraph.build_links resources node_links create_info).2.image_stamps
        create_info.dst_image =
      resources.image_stamps create_info.dst_image + 1 ∧
    (RenderGraph.build_links resources node_links create_info).2.buffer_stamps =
      resources.buffer_stamps := by
  refine ⟨rfl, rfl, ?_, rfl⟩
  simp [RenderGraph.build_links, RenderGraph.get_image_and_increase_stamp]

/-- C2: the image layout declared for the destination-image write in
`build_links` (`VK_IMAGE_LAYOUT_TRANSFER_DST_OPTIMAL`) equals the layout later
passed to `copy_buffer_to_image` in `build_commands`, for every node data
value, and `build_commands` records exactly one copy command carrying exactly
one region. -/
theorem C2_layout_consistent_one_command
    (resources : RenderGraph.VKResourceStateTracker)
    (node_links : RenderGraph.VKRenderGraphNodeLinks)
    (command_buffer : List RenderGraph.VKCommand)
    (data : RenderGraph.VKCopyBufferToImageData) :
    ((RenderGraph.build_links resources node_links
        (RenderGraph.set_node_data data)).1.outputs.drop node_links.outputs.length).map
        (fun l => l.vk_image_layout) =
      [RenderGraph.VK_IMAGE_LAYOUT_TRANSFER_DST_OPTIMAL] ∧
    RenderGraph.build_commands command_buffer data =
      command_buffer ++
        [RenderGraph.VKCommand.copy_buffer_to_image data.src_buffer data.dst_image
          RenderGraph.VK_IMAGE_LAYOUT_TRANSFER_DST_OPTIMAL 1 [data.region]] := by
  constructor
  · simp [RenderGraph.build_links, RenderGraph.set_node_data]
  · rfl

/-- C3: `exporter_main` selects an ASCII file buffer exactly when
`export_params.ascii_format` is true (a binary one otherwise) and writes to it
in the fixed order header, vertices, faces, edges, before closing the file. -/
theorem C3_exporter_main_order (export_params : Ply.PLYExportParams) :
    (Ply.exporter_main export_params).kind =
      (if export_params.ascii_format then Ply.FileBufferKind.ascii
       else Ply.FileBufferKind.binary) ∧
    (Ply.exporter_main export_params).events =
      [Ply.PlyWriteEvent.header, Ply.PlyWriteEvent.vertices, Ply.PlyWriteEvent.faces,
       Ply.PlyWriteEvent.edges, Ply.PlyWriteEvent.close_file] := by
  constructor
  · by_cases h : export_params.ascii_format <;>
      simp [Ply.exporter_main, Ply.close_file, Ply.write_edges, Ply.write_faces,
        Ply.write_vertices, Ply.write_header, h]
  · by_cases h : export_params.ascii_format <;>
      simp [Ply.exporter_main, Ply.close_file, Ply.write_edges, Ply.write_faces,
        Ply.write_vertices, Ply.write_header, h]

namespace GreasePencil

/-- The pieces of a `wmOperatorType` that the registration functions in the
excerpt fill in and that the claims mention. -/
structure WmOperatorType where
  opname : String
  idname : String
  description : String
deriving DecidableEq, Repr

def GREASE_PENCIL_OT_stroke_smooth : WmOperatorType :=
  ⟨"Smooth Stroke", "GREASE_PENCIL_OT_stroke_smooth", "Smooth selected strokes"⟩

def GREASE_PENCIL_OT_stroke_simplify : WmOperatorType :=
  ⟨"Simplify Stroke", "GREASE_PENCIL_OT_stroke_simplify", "Simplify selected strokes"⟩

def GREASE_PENCIL_OT_delete : WmOperatorType :=
  ⟨"Delete", "GREASE_PENCIL_OT_delete", "Delete selected strokes or points"⟩

def GREASE_PENCIL_OT_dissolve : WmOperatorType :=
  ⟨"Dissolve", "GREASE_PENCIL_OT_dissolve", "Delete selected points without splitting strokes"⟩

def GREASE_PENCIL_OT_delete_frame : WmOperatorType :=
  ⟨"Delete Frame", "GREASE_PENCIL_OT_delete_frame", "Delete Grease Pencil Frame(s)"⟩

def GREASE_PENCIL_OT_stroke_material_set : WmOperatorType :=
  ⟨"Assign Material", "GREASE_PENCIL_OT_stroke_material_set",
   "Assign the active material slot to the selected strokes"⟩

def GREASE_PENCIL_OT_cyclical_set : WmOperatorType :=
  ⟨"Set Cyclical State", "GREASE_PENCIL_OT_cyclical_set",
   "Close or open the selected stroke adding a segment from last to first point"⟩

def GREASE_PENCIL_OT_set_active_material : WmOperatorType :=
  ⟨"Set Active Material", "GREASE_PENCIL_OT_set_active_material",
   "Set the selected stroke material as the active material"⟩

def GREASE_PENCIL_OT_stroke_switch_direction : WmOperatorType :=
  ⟨"Switch Direction", "GREASE_PENCIL_OT_stroke_switch_direction",
   "Change direction of the points of the selected strokes"⟩

def GREASE_PENCIL_OT_set_uniform_thickness : WmOperatorType :=
  ⟨"Set Uniform Thickness", "GREASE_PENCIL_OT_set_uniform_thickness",
   "Set all stroke points to same thickness"⟩

def GREASE_PENCIL_OT_set_uniform_opacity : WmOperatorType :=
  ⟨"Set Uniform Opacity", "GREASE_PENCIL_OT_set_uniform_opacity",
   "Set all stroke points to same opacity"⟩

def GREASE_PENCIL_OT_caps_set : WmOperatorType :=
  ⟨"Set Curve Caps", "GREASE_PENCIL_OT_caps_set", "Change curve caps mode (rounded or flat)"⟩

def GREASE_PENCIL_OT_duplicate : WmOperatorType :=
  ⟨"Duplicate", "GREASE_PENCIL_OT_duplicate", "Duplicate the selected points"⟩

def GREASE_PENCIL_OT_set_material : WmOperatorType :=
  ⟨"Set Active Material", "GREASE_PENCIL_OT_set_material", "Set active material"⟩

def GREASE_PENCIL_OT_clean_loose : WmOperatorType :=
  ⟨"Clean Loose Points", "GREASE_PENCIL_OT_clean_loose", "Remove loose points"⟩

def GREASE_PENCIL_OT_separate : WmOperatorType :=
  ⟨"Separate", "GREASE_PENCIL_OT_separate",
   "Separate the selected geometry into a new grease pencil object"⟩

def GREASE_PENCIL_OT_stroke_subdivide : WmOperatorType :=
  ⟨"Subdivide Stroke", "GREASE_PENCIL_OT_stroke_subdivide",
   "Subdivide between continuous selected points of the stroke adding a point half way between them"⟩

def GREASE_PENCIL_OT_stroke_reorder : WmOperatorType :=
  ⟨"Reorder", "GREASE_PENCIL_OT_reorder", "Change the display order of the selected strokes"⟩

def GREASE_PENCIL_OT_move_to_layer : WmOperatorType :=
  ⟨"Move to Layer", "GREASE_PENCIL_OT_move_to_layer", "Move selected strokes to another layer"⟩

def GREASE_PENCIL_OT_copy : WmOperatorType :=
  ⟨"Copy Strokes", "GREASE_PENCIL_OT_copy",
   "Copy the selected Grease Pencil points or strokes to the internal clipboard"⟩

def GREASE_PENCIL_OT_paste : WmOperatorType :=
  ⟨"Paste Strokes", "GREASE_PENCIL_OT_paste",
   "Paste Grease Pencil points or strokes from the internal clipboard to the active layer"⟩

def GREASE_PENCIL_OT_stroke_merge_by_distance : WmOperatorType :=
  ⟨"Merge by Distance", "GREASE_PENCIL_OT_stroke_merge_by_distance", "Merge points by distance"⟩

/-- `GREASE_PENCIL_OT_stroke_cutter` is registered by
`ED_operatortypes_grease_pencil_edit` but defined outside the excerpt; only its
idname is needed here. -/
def GREASE_PENCIL_OT_stroke_cutter : WmOperatorType :=
  ⟨"Stroke Cutter", "GREASE_PENCIL_OT_stroke_cutter", ""⟩

def GREASE_PENCIL_OT_extrude : WmOperatorType :=
  ⟨"Extrude Stroke Points", "GREASE_PENCIL_OT_extrude", "Extrude the selected points"⟩

def GREASE_PENCIL_OT_snap_to_grid : WmOperatorType :=
  ⟨"Snap Selection to Grid", "GREASE_PENCIL_OT_snap_to_grid",
   "Snap selected points to the nearest grid points"⟩

def GREASE_PENCIL_OT_snap_to_cursor : WmOperatorType :=
  ⟨"Snap Selection to Cursor", "GREASE_PENCIL_OT_snap_to_cursor",
   "Snap selected points/strokes to the cursor"⟩

def GREASE_PENCIL_OT_snap_cursor_to_selected : WmOperatorType :=
  ⟨"Snap Cursor to Selected Points", "GREASE_PENCIL_OT_snap_cursor_to_selected",
   "Snap cursor to center of selected points"⟩

def GREASE_PENCIL_OT_set_curve_type : WmOperatorType :=
  ⟨"Set Curve Type", "GREASE_PENCIL_OT_set_curve_type", "Set type of selected curves"⟩

/-- `ED_operatortypes_grease_pencil_edit`: the operator types appended through
`WM_operatortype_append`, in source order. -/
def ED_operatortypes_grease_pencil_edit : List WmOperatorType :=
  [GREASE_PENCIL_OT_stroke_smooth,
   GREASE_PENCIL_OT_stroke_simplify,
   GREASE_PENCIL_OT_delete,
   GREASE_PENCIL_OT_dissolve,
   GREASE_PENCIL_OT_delete_frame,
   GREASE_PENCIL_OT_stroke_material_set,
   GREASE_PENCIL_OT_cyclical_set,
   GREASE_PENCIL_OT_set_active_material,
   GREASE_PENCIL_OT_stroke_switch_direction,
   GREASE_PENCIL_OT_set_uniform_thickness,
   GREASE_PENCIL_OT_set_uniform_opacity,
   GREASE_PENCIL_OT_caps_set,
   GREASE_PENCIL_OT_duplicate,
   GREASE_PENCIL_OT_set_material,
   GREASE_PENCIL_OT_clean_loose,
   GREASE_PENCIL_OT_separate,
   GREASE_PENCIL_OT_stroke_subdivide,
   GREASE_PENCIL_OT_stroke_reorder,
   GREASE_PENCIL_OT_move_to_layer,
   GREASE_PENCIL_OT_copy,
   GREASE_PENCIL_OT_paste,
   GREASE_PENCIL_OT_stroke_merge_by_distance,
   GREASE_PENCIL_OT_stroke_cutter,
   GREASE_PENCIL_OT_extrude,
   GREASE_PENCIL_OT_snap_to_grid,
   GREASE_PENCIL_OT_snap_to_cursor,
   GREASE_PENCIL_OT_snap_cursor_to_selected,
   GREASE_PENCIL_OT_set_curve_type]

def registered_idnames : List String :=
  ED_operatortypes_grease_pencil_edit.map (fun ot => ot.idname)

end GreasePencil

/-- C7: `ED_operatortypes_grease_pencil_edit` registers an operator type for
each of the enumerated stroke-editing operations: smooth, simplify, delete,
dissolve, reorder, separate, snap to grid, snap to cursor, cursor to selected,
extrude, and merge-by-distance. -/
theorem C7_registration_covers_enumerated_operators :
    "GREASE_PENCIL_OT_stroke_smooth" ∈ GreasePencil.registered_idnames ∧
    "GREASE_PENCIL_OT_stroke_simplify" ∈ GreasePencil.registered_idnames ∧
    "GREASE_PENCIL_OT_delete" ∈ GreasePencil.registered_idnames ∧
    "GREASE_PENCIL_OT_dissolve" ∈ GreasePencil.registered_idnames ∧
    "GREASE_PENCIL_OT_reorder" ∈ GreasePencil.registered_idnames ∧
    "GREASE_PENCIL_OT_separate" ∈ GreasePencil.registered_idnames ∧
    "GREASE_PENCIL_OT_snap_to_grid" ∈ GreasePencil.registered_idnames ∧
    "GREASE_PENCIL_OT_snap_to_cursor" ∈ GreasePencil.registered_idnames ∧
    "GREASE_PENCIL_OT_snap_cursor_to_selected" ∈ GreasePencil.registered_idnames ∧
    "GREASE_PENCIL_OT_extrude" ∈ GreasePencil.registered_idnames ∧
    "GREASE_PENCIL_OT_stroke_merge_by_distance" ∈ GreasePencil.registered_idnames := by
  decide

namespace GreasePencil

inductive AttrDomain where
  | Point
  | Curve
  | Layer
deriving DecidableEq, Repr

/-- How a call site touches an attribute: a defaulted read
(`lookup_or_default`), or a span write
(`lookup_for_write_span` / `lookup_or_add_for_write_span` /
`lookup_or_add_for_write_only_span`). -/
inductive AttrAccessKind where
  | readDefault
  | writeSpan
deriving DecidableEq, Repr

/-- One attribute access performed by an operator in the excerpt.
`explicit_domain` is the domain written at the call site (`none` when the call
names no domain and the domain comes from the container's attribute metadata);
`bdefault`/`idefault` are the defaults of `lookup_or_default<bool>` /
`lookup_or_default<int>` calls. -/
structure AttrAccess where
  op : String
  attr_name : String
  explicit_domain : Option AttrDomain
  kind : AttrAccessKind
  bdefault : Option Bool
  idefault : Option Int
deriving DecidableEq, Repr

/-- Modelled from the spec: the curves container's built-in attribute metadata
(the `bke::CurvesGeometry` attribute registry is not part of the excerpt).  The
glossary describes "an indexed point/curve container with per-domain attributes
(position, radius, opacity, material index, selection)"; position, radius,
opacity and selection are per-point, material index and the cyclic flag are
per-curve. -/
def builtin_attribute_domain : String → Option AttrDomain
  | "position" => some AttrDomain.Point
  | "radius" => some AttrDomain.Point
  | "opacity" => some AttrDomain.Point
  | ".selection" => some AttrDomain.Point
  | "material_index" => some AttrDomain.Curve
  | "cyclic" => some AttrDomain.Curve
  | "start_cap" => some AttrDomain.Curve
  | "end_cap" => some AttrDomain.Curve
  | _ => none

/-- The attribute accesses performed by the operators of the excerpt, one entry
per call site, in source order. -/
def gp_attribute_accesses : List AttrAccess :=
  [⟨"grease_pencil_stroke_smooth_exec", ".selection", some AttrDomain.Point,
    AttrAccessKind.readDefault, some true, none⟩,
   ⟨"grease_pencil_stroke_smooth_exec", "position", none,
    AttrAccessKind.writeSpan, none, none⟩,
   ⟨"grease_pencil_stroke_smooth_exec", "opacity", none,
    AttrAccessKind.writeSpan, none, none⟩,
   ⟨"grease_pencil_stroke_smooth_exec", "radius", none,
    AttrAccessKind.writeSpan, none, none⟩,
   ⟨"grease_pencil_stroke_simplify_exec", ".selection", some AttrDomain.Point,
    AttrAccessKind.readDefault, some true, none⟩,
   ⟨"get_points_to_dissolve", ".selection", some AttrDomain.Point,
    AttrAccessKind.readDefault, some true, none⟩,
   ⟨"grease_pencil_stroke_material_set_exec", "material_index", some AttrDomain.Curve,
    AttrAccessKind.writeSpan, none, none⟩,
   ⟨"grease_pencil_set_active_material_exec", "material_index", some AttrDomain.Curve,
    AttrAccessKind.readDefault, none, some 0⟩,
   ⟨"grease_pencil_caps_set_exec", "start_cap", some AttrDomain.Curve,
    AttrAccessKind.writeSpan, none, none⟩,
   ⟨"grease_pencil_caps_set_exec", "end_cap", some AttrDomain.Curve,
    AttrAccessKind.writeSpan, none, none⟩,
   ⟨"gpencil_stroke_subdivide_exec", ".selection", some AttrDomain.Point,
    AttrAccessKind.readDefault, some true, none⟩,
   ⟨"grease_pencil_copy_strokes_exec", "material_index", some AttrDomain.Curve,
    AttrAccessKind.readDefault, none, some 0⟩,
   ⟨"clipboard_paste_strokes", "material_index", some AttrDomain.Curve,
    AttrAccessKind.writeSpan, none, none⟩,
   ⟨"extrude_grease_pencil_curves", ".selection", some AttrDomain.Point,
    AttrAccessKind.writeSpan, none, none⟩]

/-- The domain an access actually uses: the explicitly named one, or the
built-in metadata domain when the call names none. -/
def access_domain (a : AttrAccess) : Option AttrDomain :=
  match a.explicit_domain with
  | some d => some d
  | none => builtin_attribute_domain a.attr_name

end GreasePencil

/-- C6: every operator access to "position", "radius", "opacity" and
".selection" uses the point domain and every access to "material_index" uses
the curve domain (in particular the assign-material operator writes
`material_index` on the Curve domain), each access's domain agrees with the
container's fixed per-attribute domain, and every `.selection` lookup defaults
to a point-domain boolean that is true when the attribute is absent. -/
theorem C6_attribute_domains_fixed :
    (∀ a ∈ GreasePencil.gp_attribute_accesses,
       GreasePencil.access_domain a = GreasePencil.builtin_attribute_domain a.attr_name) ∧
    (∀ a ∈ GreasePencil.gp_attribute_accesses,
       (a.attr_name = "position" ∨ a.attr_name = "radius" ∨ a.attr_name = "opacity" ∨
           a.attr_name = ".selection") →
         GreasePencil.access_domain a = some GreasePencil.AttrDomain.Point) ∧
    (∀ a ∈ GreasePencil.gp_attribute_accesses,
       a.attr_name = "material_index" →
         GreasePencil.access_domain a = some GreasePencil.AttrDomain.Curve) ∧
    (⟨"grease_pencil_stroke_material_set_exec", "material_index",
        some GreasePencil.AttrDomain.Curve, GreasePencil.AttrAccessKind.writeSpan,
        none, none⟩ ∈ GreasePencil.gp_attribute_accesses) ∧
    (∀ a ∈ GreasePencil.gp_attribute_accesses,
       a.attr_name = ".selection" → a.kind = GreasePencil.AttrAccessKind.readDefault →
         a.explicit_domain = some GreasePencil.AttrDomain.Point ∧ a.bdefault = some true) := by
  decide

namespace GreasePencil

/-- `std::swap(l[i], l[j])` on an array modelled as a list. -/
def list_swap (l : List Nat) (i j : Nat) : List Nat :=
  (l.set i (l.getD j 0)).set j (l.getD i 0)

/-- The draw-order directions of the reorder operator. -/
inductive ReorderDirection where
  | TOP
  | UP
  | DOWN
  | BOTTOM
deriving DecidableEq, Repr

/-- `IndexMask::complement` over the universe `[0, n)`:
the indices of the universe not contained in the mask. -/
def index_mask_complement (n : Nat) (selected : List Nat) : List Nat :=
  (List.range n).filter (fun i => !(decide (i ∈ selected)))

/-- `IndexMask::to_indices` into a slice of the destination array:
overwrite `src.length` entries of `dst` starting at `start`. -/
def write_slice (dst : List Nat) (start : Nat) (src : List Nat) : List Nat :=
  dst.take start ++ src ++ dst.drop (start + src.length)

/-- `get_reordered_indices` from the reorder operator.  The universe is
`[0, n)`; `selected` is the selected index mask (sorted, strictly increasing,
bounded by `n`).  For `TOP`/`BOTTOM` the array entries are all overwritten, so
the initial array is irrelevant and modelled as zeros; for `UP`/`DOWN` the
array starts as the identity (`array_utils::fill_index_range`) and selected
indices are bubbled by swapping with their neighbour, walking the mask forwards
for `DOWN` and backwards for `UP`. -/
def get_reordered_indices (n : Nat) (selected : List Nat)
    (direction : ReorderDirection) : List Nat :=
  match direction with
  | ReorderDirection.TOP =>
      let unselected := index_mask_complement n selected
      write_slice (write_slice (List.replicate n 0) 0 unselected)
        (n - selected.length) selected
  | ReorderDirection.BOTTOM =>
      let unselected := index_mask_complement n selected
      write_slice (write_slice (List.replicate n 0) 0 selected)
        (n - unselected.length) unselected
  | ReorderDirection.DOWN =>
      selected.enum.foldl
        (fun indices pc =>
          -- `pc` is (position in the mask, curve index).
          if pc.2 ≠ pc.1 then list_swap indices pc.2 (pc.2 - 1) else indices)
        (List.range n)
  | ReorderDirection.UP =>
      (List.range selected.length).foldl
        (fun indices i =>
          let pos := selected.length - 1 - i
          let curve_i := selected.getD pos 0
          if curve_i ≠ n - 1 - i then list_swap indices curve_i (curve_i + 1) else indices)
        (List.range n)

theorem list_swap_length (l : List Nat) (i j : Nat) :
    (list_swap l i j).length = l.length := by
  simp [list_swap]

theorem cons_getD_set_perm (t : List Nat) (k : Nat) (a : Nat) (h : k < t.length) :
    List.Perm (t.getD k 0 :: t.set k a) (a :: t) := by
  induction t generalizing k with
  | nil => simp at h
  | cons b t ih =>
    cases k with
    | zero =>
      simpa using List.Perm.swap a b t
    | succ k =>
      have hk : k < t.length := by simpa using h
      have step : List.Perm (t.getD k 0 :: b :: t.set k a) (b :: t.getD k 0 :: t.set k a) :=
        List.Perm.swap _ _ _
      have tail : List.Perm (b :: t.getD k 0 :: t.set k a) (b :: a :: t) :=
        List.Perm.cons b (ih k hk)
      have last : List.Perm (b :: a :: t) (a :: b :: t) := List.Perm.swap _ _ _
      simpa using (step.trans tail).trans last

theorem list_swap_perm (l : List Nat) (i j : Nat) (hi : i < l.length) (hj : j < l.length) :
    List.Perm (list_swap l i j) l := by
  induction l generalizing i j with
  | nil => simp at hi
  | cons a t ih =>
    cases i with
    | zero =>
      cases j with
      | zero => simp [list_swap]
      | succ j =>
        have hj' : j < t.length := by simpa using hj
        have : list_swap (a :: t) 0 (j + 1) = t.getD j 0 :: t.set j a := by
          simp [list_swap]
        rw [this]
        exact cons_getD_set_perm t j a hj'
    | succ i =>
      cases j with
      | zero =>
        have hi' : i < t.length := by simpa using hi
        have : list_swap (a :: t) (i + 1) 0 = t.getD i 0 :: t.set i a := by
          simp [list_swap]
        rw [this]
        exact cons_getD_set_perm t i a hi'
      | succ j =>
        have hi' : i < t.length := by simpa using hi
        have hj' : j < t.length := by simpa using hj
        have : list_swap (a :: t) (i + 1) (j + 1) = a :: list_swap t i j := by
          simp [list_swap]
        rw [this]
        exact List.Perm.cons a (ih i j hi' hj')

end GreasePencil

namespace GreasePencil

theorem foldl_perm_of_steps {σ : Type} (n : Nat) (f : List Nat → σ → List Nat)
    (steps : List σ) (init : List Nat) (hinit : init.length = n)
    (hstep : ∀ acc s, s ∈ steps → acc.length = n →
      List.Perm (f acc s) acc ∧ (f acc s).length = n) :
    List.Perm (steps.foldl f init) init := by
  induction steps generalizing init with
  | nil => exact List.Perm.refl _
  | cons s rest ih =>
    have h1 := hstep init s (List.mem_cons_self s rest) hinit
    have h2 := ih (f init s) h1.2
      (fun acc s' hs' hlen => hstep acc s' (List.mem_cons_of_mem s hs') hlen)
    exact h2.trans h1.1

theorem sorted_getD_bound (l : List Nat) (n : Nat)
    (hs : l.Sorted (· < ·)) (hb : ∀ x ∈ l, x < n) :
    ∀ pos, pos < l.length → l.getD pos 0 + (l.length - 1 - pos) < n := by
  induction l with
  | nil => intro pos h; simp at h
  | cons a t ih =>
    have hs' : t.Sorted (· < ·) := (List.sorted_cons.mp hs).2
    have hrel : ∀ b ∈ t, a < b := (List.sorted_cons.mp hs).1
    have hb' : ∀ x ∈ t, x < n := fun x hx => hb x (List.mem_cons_of_mem a hx)
    intro pos hpos
    cases pos with
    | zero =>
      cases t with
      | nil =>
        have := hb a (List.mem_cons_self a [])
        simpa using this
      | cons b t' =>
        have h0 : (b :: t').getD 0 0 + ((b :: t').length - 1 - 0) < n :=
          ih hs' hb' 0 (by simp)
        have hab : a < b := hrel b (List.mem_cons_self b t')
        simp only [List.getD_cons_zero] at h0 ⊢
        simp only [List.length_cons] at h0 ⊢
        omega
    | succ p =>
      have hp : p < t.length := by simpa using hpos
      have := ih hs' hb' p hp
      simp only [List.getD_cons_succ, List.length_cons]
      omega

theorem getD_mem (l : List Nat) (pos : Nat) (h : pos < l.length) :
    l.getD pos 0 ∈ l := by
  induction l generalizing pos with
  | nil => simp at h
  | cons a t ih =>
    cases pos with
    | zero => simp
    | succ p =>
      have hp : p < t.length := by simpa using h
      simpa using Or.inr (ih p hp)

theorem reordered_down_perm (n : Nat) (selected : List Nat)
    (hb : ∀ x ∈ selected, x < n) :
    List.Perm (get_reordered_indices n selected ReorderDirection.DOWN) (List.range n) := by
  refine foldl_perm_of_steps n _ selected.enum (List.range n) (by simp) ?_
  intro acc pc hpc hlen
  have hmem : pc.2 ∈ selected := by
    have : pc.2 ∈ selected.enum.map Prod.snd := List.mem_map_of_mem Prod.snd hpc
    simpa [List.enum_map_snd] using this
  have hci : pc.2 < n := hb _ hmem
  by_cases hg : pc.2 ≠ pc.1
  · constructor
    · rw [if_pos hg]
      exact list_swap_perm acc pc.2 (pc.2 - 1) (by omega) (by omega)
    · rw [if_pos hg, list_swap_length]; exact hlen
  · constructor
    · rw [if_neg hg]
    · rw [if_neg hg]; exact hlen

theorem reordered_up_perm (n : Nat) (selected : List Nat)
    (hs : selected.Sorted (· < ·)) (hb : ∀ x ∈ selected, x < n) :
    List.Perm (get_reordered_indices n selected ReorderDirection.UP) (List.range n) := by
  refine foldl_perm_of_steps n _ (List.range selected.length) (List.range n) (by simp) ?_
  intro acc i hi hlen
  have hilen : i < selected.length := List.mem_range.mp hi
  have hpos : selected.length - 1 - i < selected.length := by omega
  have hbound := sorted_getD_bound selected n hs hb (selected.length - 1 - i) hpos
  have harith : selected.length - 1 - (selected.length - 1 - i) = i := by omega
  rw [harith] at hbound
  by_cases hg : selected.getD (selected.length - 1 - i) 0 ≠ n - 1 - i
  · have hlt : selected.getD (selected.length - 1 - i) 0 + 1 < n := by omega
    constructor
    · rw [if_pos hg]
      exact list_swap_perm acc (selected.getD (selected.length - 1 - i) 0)
        (selected.getD (selected.length - 1 - i) 0 + 1) (by omega) (by omega)
    · rw [if_pos hg, list_swap_length]; exact hlen
  · constructor
    · rw [if_neg hg]
    · rw [if_neg hg]; exact hlen

end GreasePencil

namespace GreasePencil

theorem selected_perm_filter (n : Nat) (selected : List Nat)
    (hs : selected.Sorted (· < ·)) (hb : ∀ x ∈ selected, x < n) :
    List.Perm selected ((List.range n).filter (fun i => decide (i ∈ selected))) := by
  have hnd : selected.Nodup := hs.nodup
  have hnd2 : ((List.range n).filter (fun i => decide (i ∈ selected))).Nodup :=
    (List.nodup_range n).filter _
  refine List.perm_of_nodup_nodup_toFinset_eq hnd hnd2 ?_
  ext a
  simp only [List.mem_toFinset, List.mem_filter, List.mem_range, decide_eq_true_eq]
  exact ⟨fun h => ⟨hb a h, h⟩, fun h => h.2⟩

theorem append_perm_range (n : Nat) (selected : List Nat)
    (hs : selected.Sorted (· < ·)) (hb : ∀ x ∈ selected, x < n) :
    List.Perm (selected ++ index_mask_complement n selected) (List.range n) := by
  have h1 := selected_perm_filter n selected hs hb
  have h2 := List.filter_append_perm (fun i => decide (i ∈ selected)) (List.range n)
  exact (h1.append_right (index_mask_complement n selected)).trans h2

theorem complement_length (n : Nat) (selected : List Nat)
    (hs : selected.Sorted (· < ·)) (hb : ∀ x ∈ selected, x < n) :
    selected.length + (index_mask_complement n selected).length = n := by
  have := (append_perm_range n selected hs hb).length_eq
  simpa using this

theorem write_slice_zero (n : Nat) (src : List Nat) (h : src.length ≤ n) :
    write_slice (List.replicate n 0) 0 src = src ++ List.replicate (n - src.length) 0 := by
  simp [write_slice, List.drop_replicate]

theorem write_slice_back (X Y : List Nat) (n : Nat)
    (hlen : X.length + Y.length = n) :
    write_slice (X ++ List.replicate (n - X.length) 0) (n - Y.length) Y = X ++ Y := by
  have hX : X.length ≤ n := by omega
  have hstart : n - Y.length = X.length := by omega
  rw [hstart]
  have htake : (X ++ List.replicate (n - X.length) 0).take X.length = X := by
    simpa using List.take_left X (List.replicate (n - X.length) 0)
  have hlenfull : (X ++ List.replicate (n - X.length) 0).length = n := by
    simp; omega
  have hdrop : (X ++ List.replicate (n - X.length) 0).drop (X.length + Y.length) = [] := by
    apply List.drop_eq_nil_of_le
    omega
  simp only [write_slice, htake, hdrop, List.append_nil]

theorem reordered_ends_perm (n : Nat) (selected : List Nat)
    (direction : ReorderDirection)
    (hdir : direction = ReorderDirection.TOP ∨ direction = ReorderDirection.BOTTOM)
    (hs : selected.Sorted (· < ·)) (hb : ∀ x ∈ selected, x < n) :
    List.Perm (get_reordered_indices n selected direction) (List.range n) := by
  have hsum := complement_length n selected hs hb
  have hperm := append_perm_range n selected hs hb
  rcases hdir with h | h <;> subst h
  · show List.Perm
      (write_slice (write_slice (List.replicate n 0) 0 (index_mask_complement n selected))
        (n - selected.length) selected) (List.range n)
    rw [write_slice_zero n _ (by omega),
        write_slice_back (index_mask_complement n selected) selected n (by omega)]
    exact (List.perm_append_comm).trans hperm
  · show List.Perm
      (write_slice (write_slice (List.replicate n 0) 0 selected)
        (n - (index_mask_complement n selected).length) (index_mask_complement n selected))
      (List.range n)
    rw [write_slice_zero n _ (by omega),
        write_slice_back selected (index_mask_complement n selected) n (by omega)]
    exact hperm

end GreasePencil

/-- C8: for every universe `[0, n)`, every sorted selected index mask that is a
subset of the universe, and each of the four reorder directions,
`get_reordered_indices` returns an array of length `n` that is a permutation of
the indices `0 .. n-1`. -/
theorem C8_get_reordered_indices_permutation (n : Nat) (selected : List Nat)
    (direction : GreasePencil.ReorderDirection)
    (hs : selected.Sorted (· < ·)) (hb : ∀ x ∈ selected, x < n) :
    (GreasePencil.get_reordered_indices n selected direction).length = n ∧
    List.Perm (GreasePencil.get_reordered_indices n selected direction) (List.range n) := by
  have hperm : List.Perm (GreasePencil.get_reordered_indices n selected direction)
      (List.range n) := by
    cases direction with
    | TOP => exact GreasePencil.reordered_ends_perm n selected _ (Or.inl rfl) hs hb
    | BOTTOM => exact GreasePencil.reordered_ends_perm n selected _ (Or.inr rfl) hs hb
    | DOWN => exact GreasePencil.reordered_down_perm n selected hb
    | UP => exact GreasePencil.reordered_up_perm n selected hs hb
  exact ⟨by simpa using hperm.length_eq, hperm⟩

/-- Witness for C8 at the concrete universe `[0, 6)` with mask `[1, 4]`,
direction `UP`. -/
theorem C8_witness :
    (GreasePencil.get_reordered_indices 6 [1, 4] GreasePencil.ReorderDirection.UP).length = 6 ∧
    List.Perm (GreasePencil.get_reordered_indices 6 [1, 4] GreasePencil.ReorderDirection.UP)
      (List.range 6) :=
  C8_get_reordered_indices_permutation 6 [1, 4] GreasePencil.ReorderDirection.UP
    (by simp) (by decide)

namespace GreasePencil

/-- A boolean `VArray`: either a single repeated value or a materialized span. -/
inductive VArrayBool where
  | single (v : Bool) (size : Nat)
  | span (values : List Bool)
deriving DecidableEq, Repr

def VArrayBool.get : VArrayBool → Nat → Bool
  | VArrayBool.single v _, _ => v
  | VArrayBool.span vs, i => vs.getD i false

def VArrayBool.get_if_single : VArrayBool → Option Bool
  | VArrayBool.single v _ => some v
  | VArrayBool.span _ => none

/-- `bke::CurvesGeometry`, restricted to what the verified operators touch:
curve offsets (`points_by_curve`), the cyclic curve attribute, the
`".selection"` point attribute, and one representative generic point attribute
and curve attribute (of arbitrary payload types `P` and `Q`) standing for the
remaining per-point / per-curve attributes that `gather_attributes` copies by
index. -/
structure CurvesGeometry (P Q : Type) where
  curve_offsets : List Nat
  cyclic : VArrayBool
  selection : List Bool
  point_attr : List P
  curve_attr : List Q
deriving DecidableEq, Repr

def CurvesGeometry.points_num {P Q : Type} (c : CurvesGeometry P Q) : Nat :=
  c.curve_offsets.getLastD 0

def CurvesGeometry.curves_num {P Q : Type} (c : CurvesGeometry P Q) : Nat :=
  c.curve_offsets.length - 1

/-- A default-constructed `CurvesGeometry`: no points, no curves. -/
def CurvesGeometry.empty {P Q : Type} : CurvesGeometry P Q :=
  ⟨[0], VArrayBool.span [], [], [], []⟩

/-- `IndexMask::to_bools` over `[0, n)`. -/
def index_mask_to_bools (n : Nat) (mask : List Nat) : List Bool :=
  (List.range n).map (fun i => decide (i ∈ mask))

/-- The index positions at which a boolean list holds the value `v`,
in increasing order. -/
def positions_of : List Bool → Bool → List Nat
  | [], _ => []
  | b :: t, v =>
    if b = v then 0 :: (positions_of t v).map (· + 1) else (positions_of t v).map (· + 1)

/-- Merge step of `find_all_ranges`: after shifting the tail's ranges by one,
either a fresh run of length 1 starts at position 0, or it extends a run that
now starts at position 1. -/
def fuse_front : List (Nat × Nat) → List (Nat × Nat)
  | [] => [(0, 1)]
  | (s, len) :: rest =>
    if s = 1 then (0, len + 1) :: rest else (0, 1) :: (s, len) :: rest

/-- `array_utils::find_all_ranges`: the maximal runs of value `v`, as
(start, size) pairs in increasing order. -/
def find_all_ranges : List Bool → Bool → List (Nat × Nat)
  | [], _ => []
  | b :: t, v =>
    let shifted := (find_all_ranges t v).map (fun r => (r.1 + 1, r.2))
    if b = v then fuse_front shifted else shifted

/-- The indices covered by a list of (start, size) ranges, in order. -/
def ranges_indices : List (Nat × Nat) → List Nat
  | [] => []
  | r :: rest => List.range' r.1 r.2 ++ ranges_indices rest

/-- The indices covered by a list of ranges after `IndexRange::shift start`. -/
def ranges_indices_from (start : Nat) : List (Nat × Nat) → List Nat
  | [] => []
  | r :: rest => List.range' (start + r.1) r.2 ++ ranges_indices_from start rest

/-- Apply `f` to the last element of a list (models the in-place `count +=`
on the last emitted range of a self-joined cyclic curve). -/
def modify_last (f : Nat → Nat) : List Nat → List Nat
  | [] => []
  | [x] => [f x]
  | x :: y :: rest => x :: modify_last f (y :: rest)

theorem range'_map_add (a s k : Nat) :
    List.range' (a + s) k = (List.range' s k).map (a + ·) := by
  rw [List.range'_eq_map_range, List.range'_eq_map_range, List.map_map]
  congr 1
  funext x
  simp only [Function.comp_apply]
  omega

theorem range'_map_succ (s k : Nat) :
    List.range' (s + 1) k = (List.range' s k).map (· + 1) := by
  have h := range'_map_add 1 s k
  rw [Nat.add_comm 1 s] at h
  rw [h]
  congr 1
  funext x
  omega

theorem ranges_indices_shift (rs : List (Nat × Nat)) :
    ranges_indices (rs.map (fun r => (r.1 + 1, r.2))) = (ranges_indices rs).map (· + 1) := by
  induction rs with
  | nil => rfl
  | cons r rest ih =>
    simp only [List.map_cons, ranges_indices, List.map_append, ih, range'_map_succ]

theorem ranges_indices_fuse_front (rs : List (Nat × Nat)) :
    ranges_indices (fuse_front rs) = 0 :: ranges_indices rs := by
  match rs with
  | [] => rfl
  | (s, len) :: rest =>
    by_cases hs : s = 1
    · subst hs
      simp only [fuse_front, if_pos rfl, ranges_indices]
      rfl
    · simp only [fuse_front, if_neg hs, ranges_indices]
      simp [List.range']

end GreasePencil

namespace GreasePencil

theorem find_all_ranges_indices (l : List Bool) (v : Bool) :
    ranges_indices (find_all_ranges l v) = positions_of l v := by
  induction l with
  | nil => rfl
  | cons b t ih =>
    by_cases hb : b = v
    · simp only [find_all_ranges, positions_of, if_pos hb, ranges_indices_fuse_front,
        ranges_indices_shift, ih]
    · simp only [find_all_ranges, positions_of, if_neg hb, ranges_indices_shift, ih]

theorem positions_of_length (l : List Bool) (v : Bool) :
    (positions_of l v).length = l.count v := by
  induction l with
  | nil => rfl
  | cons b t ih =>
    by_cases hb : b = v
    · simp [positions_of, if_pos hb, ih, List.count_cons, hb]
    · simp [positions_of, if_neg hb, ih, List.count_cons, Ne.symm hb]

theorem positions_of_append (l₁ l₂ : List Bool) (v : Bool) :
    positions_of (l₁ ++ l₂) v =
      positions_of l₁ v ++ (positions_of l₂ v).map (l₁.length + ·) := by
  induction l₁ with
  | nil => simp [positions_of]
  | cons b t ih =>
    have hfun : ((fun x => x + 1) ∘ fun x => t.length + x) = (fun x => t.length + 1 + x) := by
      funext x
      simp only [Function.comp_apply]
      omega
    have key : (positions_of (t ++ l₂) v).map (· + 1) =
        (positions_of t v).map (· + 1) ++ (positions_of l₂ v).map (t.length + 1 + ·) := by
      rw [ih, List.map_append, List.map_map, hfun]
    by_cases hb : b = v
    · show positions_of (b :: (t ++ l₂)) v = _
      simp only [positions_of, if_pos hb, key, List.length_cons, List.cons_append]
    · show positions_of (b :: (t ++ l₂)) v = _
      simp only [positions_of, if_neg hb, key, List.length_cons]

theorem ranges_indices_from_eq (start : Nat) (rs : List (Nat × Nat)) :
    ranges_indices_from start rs = (ranges_indices rs).map (start + ·) := by
  induction rs with
  | nil => rfl
  | cons r rest ih =>
    simp only [ranges_indices_from, ranges_indices, List.map_append, ih, range'_map_add]

theorem ranges_indices_length (rs : List (Nat × Nat)) :
    (ranges_indices rs).length = (rs.map Prod.snd).sum := by
  induction rs with
  | nil => rfl
  | cons r rest ih => simp [ranges_indices, ih]

theorem modify_last_length (f : Nat → Nat) (l : List Nat) :
    (modify_last f l).length = l.length := by
  induction l with
  | nil => rfl
  | cons x t ih =>
    cases t with
    | nil => rfl
    | cons y rest => simpa [modify_last] using ih

theorem modify_last_add_sum (k : Nat) (l : List Nat) (h : l ≠ []) :
    (modify_last (· + k) l).sum = l.sum + k := by
  induction l with
  | nil => simp at h
  | cons x t ih =>
    cases t with
    | nil => simp [modify_last]
    | cons y rest =>
      have := ih (by simp)
      simp only [modify_last, List.sum_cons] at this ⊢
      omega

theorem getLastD_irrel {α : Type} (a : α) (t : List α) (d₁ d₂ : α) :
    (a :: t).getLastD d₁ = (a :: t).getLastD d₂ := rfl

theorem scanl_add_getLastD (l : List Nat) (a : Nat) :
    (l.scanl (· + ·) a).getLastD 0 = a + l.sum := by
  induction l generalizing a with
  | nil => simp [List.scanl]
  | cons x t ih =>
    have h2 := ih (a + x)
    cases hsc : List.scanl (· + ·) (a + x) t with
    | nil => cases t <;> simp [List.scanl] at hsc
    | cons z zs =>
      rw [hsc] at h2
      show (List.scanl (· + ·) a (x :: t)).getLastD 0 = a + (x :: t).sum
      rw [List.scanl_cons, hsc, List.singleton_append]
      have h3 : (a :: z :: zs).getLastD 0 = (z :: zs).getLastD a := rfl
      have h4 : (z :: zs).getLastD a = (z :: zs).getLastD 0 := rfl
      rw [h3, h4, h2]
      simp only [List.sum_cons]
      omega

end GreasePencil

namespace GreasePencil

/-- The per-curve output arrays accumulated by the `remove_points_and_split`
loop: flattened destination-to-source point map, per-destination-curve point
counts, destination-to-source curve map, and destination cyclic flags. -/
structure RpsAcc where
  dst_to_src_point : List Nat
  dst_curve_counts : List Nat
  dst_to_src_curve : List Nat
  dst_cyclic : List Bool
deriving DecidableEq, Repr

def RpsAcc.append (a b : RpsAcc) : RpsAcc :=
  ⟨a.dst_to_src_point ++ b.dst_to_src_point,
   a.dst_curve_counts ++ b.dst_curve_counts,
   a.dst_to_src_curve ++ b.dst_to_src_curve,
   a.dst_cyclic ++ b.dst_cyclic⟩

/-- One iteration of the curve loop of `remove_points_and_split`.  `slice` is
the curve's slice of `points_to_delete`; the kept ranges are emitted in order,
except that for a self-joined cyclic curve the first kept range is skipped and
re-emitted after the last one (the source appends it inside the last iteration
and adds its size to that range's count). -/
def rps_last_segment_selected (slice : List Bool) (curve_cyclic : Bool)
    (ranges_to_keep : List (Nat × Nat)) : Bool :=
  curve_cyclic && decide ((ranges_to_keep.headD (0, 0)).1 = 0) &&
    decide ((ranges_to_keep.getLastD (0, 0)).1 +
      (ranges_to_keep.getLastD (0, 0)).2 - 1 = slice.length - 1)

def rps_self_joined (slice : List Bool) (curve_cyclic : Bool)
    (ranges_to_keep : List (Nat × Nat)) : Bool :=
  rps_last_segment_selected slice curve_cyclic ranges_to_keep &&
    decide (ranges_to_keep.length ≠ 1)

def rps_process_curve (slice : List Bool) (curve_cyclic : Bool)
    (start curve_i : Nat) : RpsAcc :=
  let ranges_to_keep := find_all_ranges slice false
  if ranges_to_keep.isEmpty then ⟨[], [], [], []⟩
  else
    let first := ranges_to_keep.headD (0, 0)
    let is_curve_self_joined := rps_self_joined slice curve_cyclic ranges_to_keep
    let is_cyclic : Bool :=
      decide (ranges_to_keep.length = 1) &&
        rps_last_segment_selected slice curve_cyclic ranges_to_keep
    let used := if is_curve_self_joined then ranges_to_keep.drop 1 else ranges_to_keep
    ⟨ranges_indices_from start used ++
       (if is_curve_self_joined then List.range' (start + first.1) first.2 else []),
     if is_curve_self_joined then modify_last (· + first.2) (used.map Prod.snd)
     else used.map Prod.snd,
     List.replicate used.length curve_i,
     List.replicate used.length is_cyclic⟩

/-- The curve loop of `remove_points_and_split`, walking the curve boundaries:
curve `curve_i` covers points `[start, stop)`. -/
def rps_go (cyclic : VArrayBool) (del : List Bool) :
    Nat → Nat → List Nat → RpsAcc
  | _, _, [] => ⟨[], [], [], []⟩
  | curve_i, start, stop :: rest =>
      (rps_process_curve ((del.drop start).take (stop - start))
          (cyclic.get curve_i) start curve_i).append
        (rps_go cyclic del (curve_i + 1) stop rest)

def rps_build {P Q : Type} (c : CurvesGeometry P Q) (del : List Bool) : RpsAcc :=
  match c.curve_offsets with
  | [] => ⟨[], [], [], []⟩
  | o0 :: rest => rps_go c.cyclic del 0 o0 rest

/-- `remove_points_and_split`: remove the masked points, splitting curves at
the removed points; an entirely deleted geometry collapses to the
default-constructed one.  Attributes are gathered along the
destination-to-source maps; the destination cyclic flags replace the gathered
`"cyclic"` values. -/
def remove_points_and_split {P Q : Type} [Inhabited P] [Inhabited Q]
    (curves : CurvesGeometry P Q) (mask : List Nat) : CurvesGeometry P Q :=
  let points_to_delete := index_mask_to_bools curves.points_num mask
  let total_points := points_to_delete.count false
  if total_points = 0 then CurvesGeometry.empty
  else
    let acc := rps_build curves points_to_delete
    { curve_offsets := acc.dst_curve_counts.scanl (· + ·) 0,
      cyclic := VArrayBool.span acc.dst_cyclic,
      selection := acc.dst_to_src_point.map (fun j => curves.selection.getD j false),
      point_attr := acc.dst_to_src_point.map (fun j => curves.point_attr.getD j default),
      curve_attr := acc.dst_to_src_curve.map (fun j => curves.curve_attr.getD j default) }

end GreasePencil

namespace GreasePencil

theorem rps_points_joined (first : Nat × Nat) (tail : List (Nat × Nat)) (start : Nat) :
    List.Perm
      (ranges_indices_from start tail ++ List.range' (start + first.1) first.2)
      ((ranges_indices (first :: tail)).map (start + ·)) := by
  have h1 : (ranges_indices (first :: tail)).map (start + ·) =
      List.range' (start + first.1) first.2 ++ ranges_indices_from start tail := by
    simp only [ranges_indices, List.map_append, ranges_indices_from_eq, range'_map_add]
  rw [h1]
  exact List.perm_append_comm

theorem rps_counts_joined (first : Nat × Nat) (tail : List (Nat × Nat)) (hne : tail ≠ []) :
    (modify_last (· + first.2) (tail.map Prod.snd)).sum =
      ((first :: tail).map Prod.snd).sum := by
  have hne2 : tail.map Prod.snd ≠ [] := by
    cases tail with
    | nil => exact absurd rfl hne
    | cons a b => simp
  rw [modify_last_add_sum first.2 (tail.map Prod.snd) hne2]
  simp only [List.map_cons, List.sum_cons]
  omega

theorem self_joined_tail_ne (slice : List Bool) (cyc : Bool) (first : Nat × Nat)
    (tail : List (Nat × Nat))
    (h : rps_self_joined slice cyc (first :: tail) = true) : tail ≠ [] := by
  intro habs
  subst habs
  simp [rps_self_joined] at h

theorem rps_process_curve_spec (slice : List Bool) (cyc : Bool) (start curve_i : Nat) :
    List.Perm (rps_process_curve slice cyc start curve_i).dst_to_src_point
      ((positions_of slice false).map (start + ·)) ∧
    (rps_process_curve slice cyc start curve_i).dst_curve_counts.sum =
      slice.count false := by
  have hcount : (positions_of slice false).length = slice.count false :=
    positions_of_length slice false
  rcases hfind : find_all_ranges slice false with _ | ⟨first, tail⟩
  · have hpos : positions_of slice false = [] := by
      rw [← find_all_ranges_indices, hfind]; rfl
    rw [hpos] at hcount
    constructor
    · simp [rps_process_curve, hfind, hpos]
    · simp [rps_process_curve, hfind, ← hcount]
  · have hpos : positions_of slice false = ranges_indices (first :: tail) := by
      rw [← find_all_ranges_indices, hfind]
    rw [hpos] at hcount
    by_cases hj : rps_self_joined slice cyc (first :: tail) = true
    · have hne : tail ≠ [] := self_joined_tail_ne slice cyc first tail hj
      constructor
      · simp only [rps_process_curve, hfind, List.isEmpty_cons, Bool.false_eq_true,
          if_false, List.headD_cons, hj, eq_self_iff_true, if_true, List.drop_one,
          List.tail_cons]
        rw [hpos]
        exact rps_points_joined first tail start
      · simp only [rps_process_curve, hfind, List.isEmpty_cons, Bool.false_eq_true,
          if_false, List.headD_cons, hj, eq_self_iff_true, if_true, List.drop_one,
          List.tail_cons]
        rw [← hcount, ranges_indices_length]
        exact rps_counts_joined first tail hne
    · constructor
      · simp only [rps_process_curve, hfind, List.isEmpty_cons, Bool.false_eq_true,
          if_false, List.headD_cons, if_neg hj, List.append_nil]
        rw [hpos, ranges_indices_from_eq]
      · simp only [rps_process_curve, hfind, List.isEmpty_cons, Bool.false_eq_true,
          if_false, List.headD_cons, if_neg hj]
        rw [← hcount, ranges_indices_length]

end GreasePencil

namespace GreasePencil

theorem chain'_le_getLastD (l : List Nat) (a : Nat)
    (h : List.Chain' (· ≤ ·) (a :: l)) : a ≤ l.getLastD a := by
  induction l generalizing a with
  | nil => exact Nat.le_refl a
  | cons b t ih =>
    have h1 : a ≤ b := (List.chain'_cons.mp h).1
    have h2 := ih b (List.chain'_cons.mp h).2
    have e : (b :: t).getLastD a = t.getLastD b := List.getLastD_cons a b t
    rw [e]
    exact le_trans h1 h2

theorem rps_go_spec (cyclic : VArrayBool) (del : List Bool) (offs : List Nat) :
    ∀ (curve_i start : Nat),
      List.Chain' (· ≤ ·) (start :: offs) →
      offs.getLastD start = del.length →
      List.Perm (rps_go cyclic del curve_i start offs).dst_to_src_point
        ((positions_of (del.drop start) false).map (start + ·)) ∧
      (rps_go cyclic del curve_i start offs).dst_curve_counts.sum =
        (del.drop start).count false := by
  induction offs with
  | nil =>
    intro curve_i start hch hlast
    have hstart : start = del.length := hlast
    have hdrop : del.drop start = [] := by
      apply List.drop_eq_nil_of_le
      omega
    simp [rps_go, hdrop, positions_of]
  | cons stop rest ih =>
    intro curve_i start hch hlast
    have h1 : start ≤ stop := (List.chain'_cons.mp hch).1
    have hch' : List.Chain' (· ≤ ·) (stop :: rest) := (List.chain'_cons.mp hch).2
    have e : (stop :: rest).getLastD start = rest.getLastD stop :=
      List.getLastD_cons start stop rest
    have hlast' : rest.getLastD stop = del.length := e ▸ hlast
    have h2 : stop ≤ del.length := hlast' ▸ chain'_le_getLastD rest stop hch'
    have ihs := ih (curve_i + 1) stop hch' hlast'
    have hsplit : del.drop start = (del.drop start).take (stop - start) ++ del.drop stop := by
      have : del.drop stop = ((del.drop start)).drop (stop - start) := by
        rw [List.drop_drop]
        congr 1
        omega
      rw [this, List.take_append_drop]
    have hslicelen : ((del.drop start).take (stop - start)).length = stop - start := by
      rw [List.length_take, List.length_drop]
      omega
    have hproc := rps_process_curve_spec ((del.drop start).take (stop - start))
      (cyclic.get curve_i) start curve_i
    constructor
    · show List.Perm
        ((rps_process_curve ((del.drop start).take (stop - start))
            (cyclic.get curve_i) start curve_i).dst_to_src_point ++
          (rps_go cyclic del (curve_i + 1) stop rest).dst_to_src_point) _
      have happ := hproc.1.append ihs.1
      have htarget :
          (positions_of ((del.drop start).take (stop - start)) false).map (start + ·) ++
            (positions_of (del.drop stop) false).map (stop + ·) =
          (positions_of (del.drop start) false).map (start + ·) := by
        have hfun : ((fun x => start + x) ∘ fun x => stop - start + x) =
            (fun x : Nat => stop + x) := by
          funext x
          simp only [Function.comp_apply]
          omega
        conv_rhs => rw [hsplit]
        rw [positions_of_append, List.map_append, hslicelen, List.map_map, hfun]
      rw [← htarget]
      exact happ
    · show ((rps_process_curve ((del.drop start).take (stop - start))
            (cyclic.get curve_i) start curve_i).dst_curve_counts ++
          (rps_go cyclic del (curve_i + 1) stop rest).dst_curve_counts).sum = _
      rw [List.sum_append, hproc.2, ihs.2]
      conv_rhs => rw [hsplit]
      rw [List.count_append]

end GreasePencil

namespace GreasePencil

theorem beq_false_eq_not (f : Nat → Bool) :
    (fun i => f i == false) = (fun i => !(f i)) := by
  funext i
  cases f i <;> rfl

theorem positions_of_map_range (n : Nat) (f : Nat → Bool) (v : Bool) :
    positions_of ((List.range n).map f) v = (List.range n).filter (fun i => f i == v) := by
  induction n with
  | zero => rfl
  | succ n ih =>
    rw [List.range_succ, List.map_append, positions_of_append, ih, List.filter_append]
    simp only [List.length_map, List.length_range, List.map_cons, List.map_nil]
    by_cases h : f n = v
    · simp [positions_of, h, List.filter_cons]
    · simp [positions_of, h, List.filter_cons]

theorem count_false_map_range (n : Nat) (f : Nat → Bool) :
    ((List.range n).map f).count false =
      ((List.range n).filter (fun i => !(f i))).length := by
  have h1 := positions_of_length ((List.range n).map f) false
  rw [positions_of_map_range, beq_false_eq_not] at h1
  exact h1.symm

theorem rps_build_spec {P Q : Type} (c : CurvesGeometry P Q) (del : List Bool)
    (hne : c.curve_offsets ≠ []) (h0 : c.curve_offsets.headD 0 = 0)
    (hch : List.Chain' (· ≤ ·) c.curve_offsets)
    (hlen : del.length = c.points_num) :
    List.Perm (rps_build c del).dst_to_src_point (positions_of del false) ∧
    (rps_build c del).dst_curve_counts.sum = del.count false := by
  rcases hoffs : c.curve_offsets with _ | ⟨o0, rest⟩
  · exact absurd hoffs hne
  · have ho0 : o0 = 0 := by rw [hoffs] at h0; simpa using h0
    subst ho0
    have hch2 : List.Chain' (· ≤ ·) (0 :: rest) := by rw [hoffs] at hch; exact hch
    have hlast : rest.getLastD 0 = del.length := by
      rw [hlen]
      show rest.getLastD 0 = c.curve_offsets.getLastD 0
      rw [hoffs, List.getLastD_cons]
    have hgo := rps_go_spec c.cyclic del rest 0 0 hch2 hlast
    have hmap : (positions_of (del.drop 0) false).map (0 + ·) = positions_of del false := by
      rw [List.drop_zero]
      have hid : (fun x : Nat => 0 + x) = (fun x => x) := by funext x; omega
      rw [hid]
      exact List.map_id' _
    constructor
    · have h := hgo.1
      rw [hmap] at h
      simpa only [rps_build, hoffs] using h
    · have h := hgo.2
      rw [List.drop_zero] at h
      simpa only [rps_build, hoffs] using h

end GreasePencil

/-- C9: for every curves geometry (with well-formed, monotone curve offsets
starting at 0) and every point index mask, `remove_points_and_split` returns a
geometry whose point count equals the number of source points not in the mask;
when the mask covers all points it returns the default-constructed
`CurvesGeometry`; and the kept points' attributes are gathered unchanged along
the destination-to-source point map, which enumerates exactly the source
points not in the mask. -/
theorem C9_remove_points_and_split {P Q : Type} [Inhabited P] [Inhabited Q]
    (c : GreasePencil.CurvesGeometry P Q) (mask : List Nat)
    (hne : c.curve_offsets ≠ []) (h0 : c.curve_offsets.headD 0 = 0)
    (hch : List.Chain' (· ≤ ·) c.curve_offsets) :
    (GreasePencil.remove_points_and_split c mask).points_num =
      ((List.range c.points_num).filter (fun i => !(decide (i ∈ mask)))).length ∧
    ((∀ i, i < c.points_num → i ∈ mask) →
      GreasePencil.remove_points_and_split c mask = GreasePencil.CurvesGeometry.empty) ∧
    (GreasePencil.remove_points_and_split c mask).point_attr =
      (GreasePencil.rps_build c
          (GreasePencil.index_mask_to_bools c.points_num mask)).dst_to_src_point.map
        (fun j => c.point_attr.getD j default) ∧
    List.Perm
      (GreasePencil.rps_build c
        (GreasePencil.index_mask_to_bools c.points_num mask)).dst_to_src_point
      ((List.range c.points_num).filter (fun i => !(decide (i ∈ mask)))) := by
  have hlen : (GreasePencil.index_mask_to_bools c.points_num mask).length = c.points_num := by
    simp [GreasePencil.index_mask_to_bools]
  have hbuild := GreasePencil.rps_build_spec c
    (GreasePencil.index_mask_to_bools c.points_num mask) hne h0 hch hlen
  have hcnt : (GreasePencil.index_mask_to_bools c.points_num mask).count false =
      ((List.range c.points_num).filter (fun i => !(decide (i ∈ mask)))).length :=
    GreasePencil.count_false_map_range c.points_num (fun i => decide (i ∈ mask))
  have hposf : GreasePencil.positions_of
        (GreasePencil.index_mask_to_bools c.points_num mask) false =
      (List.range c.points_num).filter (fun i => !(decide (i ∈ mask))) := by
    show GreasePencil.positions_of
      ((List.range c.points_num).map (fun i => decide (i ∈ mask))) false = _
    rw [GreasePencil.positions_of_map_range, GreasePencil.beq_false_eq_not]
  have hperm : List.Perm
      (GreasePencil.rps_build c
        (GreasePencil.index_mask_to_bools c.points_num mask)).dst_to_src_point
      ((List.range c.points_num).filter (fun i => !(decide (i ∈ mask)))) := by
    rw [← hposf]
    exact hbuild.1
  by_cases hz : (GreasePencil.index_mask_to_bools c.points_num mask).count false = 0
  · have hfilter : ((List.range c.points_num).filter
        (fun i => !(decide (i ∈ mask)))).length = 0 := by
      rw [← hcnt]; exact hz
    have hres : GreasePencil.remove_points_and_split c mask =
        GreasePencil.CurvesGeometry.empty := by
      simp only [GreasePencil.remove_points_and_split, hz, if_true]
    have hd2s : (GreasePencil.rps_build c
        (GreasePencil.index_mask_to_bools c.points_num mask)).dst_to_src_point = [] := by
      have h1 : ((List.range c.points_num).filter (fun i => !(decide (i ∈ mask)))) = [] :=
        List.length_eq_zero.mp hfilter
      rw [h1] at hperm
      exact hperm.eq_nil
    refine ⟨?_, fun _ => hres, ?_, hperm⟩
    · rw [hres, hfilter]; rfl
    · rw [hres, hd2s]; rfl
  · constructor
    · have hres : (GreasePencil.remove_points_and_split c mask).points_num =
          ((GreasePencil.rps_build c
            (GreasePencil.index_mask_to_bools c.points_num mask)).dst_curve_counts.scanl
              (· + ·) 0).getLastD 0 := by
        simp only [GreasePencil.remove_points_and_split, hz, if_false]
        rfl
      rw [hres, GreasePencil.scanl_add_getLastD, hbuild.2, hcnt]
      omega
    · constructor
      · intro hall
        exfalso
        apply hz
        rw [hcnt]
        have : ((List.range c.points_num).filter (fun i => !(decide (i ∈ mask)))) = [] := by
          apply List.filter_eq_nil.mpr
          intro a ha
          have := hall a (List.mem_range.mp ha)
          simp [this]
        rw [this]
        rfl
      · constructor
        · simp only [GreasePencil.remove_points_and_split, hz, if_false]
        · exact hperm

/-- Witness input for C9: two curves (3 and 4 points, the first cyclic),
deleting point 1. -/
def c9_example : GreasePencil.CurvesGeometry Nat Nat :=
  ⟨[0, 3, 7], GreasePencil.VArrayBool.span [true, false],
   [true, true, true, true, true, true, true],
   [10, 11, 12, 13, 14, 15, 16], [100, 200]⟩

/-- Witness for C9 at `c9_example` with mask `[1]`. -/
theorem C9_witness :
    c9_example.curve_offsets ≠ [] ∧
    (GreasePencil.remove_points_and_split c9_example [1]).points_num =
      ((List.range c9_example.points_num).filter
        (fun i => !(decide (i ∈ ([1] : List Nat))))).length :=
  ⟨by decide,
   (C9_remove_points_and_split c9_example [1] (by decide) (by decide)
     (by simp [c9_example, List.chain'_cons])).1⟩

namespace GreasePencil

/-- The state threaded through the point loop of `extrude_grease_pencil_curves`:
the destination-to-source maps under construction, the destination selection,
the per-curve point counts, and the number of points inserted so far. -/
structure ExtrudeAcc where
  dst_to_src_points : List Nat
  dst_selected : List Bool
  dst_curve_counts : List Nat
  dst_to_src_curves : List Nat
  point_offset : Nat
deriving DecidableEq, Repr

/-- The body of `curve_points_to_extrude.foreach_index` in
`extrude_grease_pencil_curves`: a non-cyclic start/end point inserts a new
point next to itself; any other extruded point spawns a new two-point curve. -/
def extrude_point_step (curve_points_first curve_points_last : Nat)
    (curve_cyclic : Bool) (curve_index : Nat)
    (acc : ExtrudeAcc) (src_point_index : Nat) : ExtrudeAcc :=
  if !curve_cyclic && decide (src_point_index = curve_points_first) then
    { acc with
      dst_to_src_points :=
        acc.dst_to_src_points.insertIdx (src_point_index + acc.point_offset) src_point_index,
      dst_selected := acc.dst_selected.insertIdx (src_point_index + acc.point_offset) true,
      dst_curve_counts :=
        acc.dst_curve_counts.set curve_index
          (acc.dst_curve_counts.getD curve_index 0 + 1),
      point_offset := acc.point_offset + 1 }
  else if !curve_cyclic && decide (src_point_index = curve_points_last) then
    { acc with
      dst_to_src_points :=
        acc.dst_to_src_points.insertIdx (src_point_index + acc.point_offset + 1)
          src_point_index,
      dst_selected := acc.dst_selected.insertIdx (src_point_index + acc.point_offset + 1) true,
      dst_curve_counts :=
        acc.dst_curve_counts.set curve_index
          (acc.dst_curve_counts.getD curve_index 0 + 1),
      point_offset := acc.point_offset + 1 }
  else
    { acc with
      dst_to_src_points := acc.dst_to_src_points ++ [src_point_index, src_point_index],
      dst_selected := acc.dst_selected ++ [false, true],
      dst_to_src_curves := acc.dst_to_src_curves ++ [curve_index],
      dst_curve_counts := acc.dst_curve_counts ++ [2] }

/-- The point/curve loop of `extrude_grease_pencil_curves`: starting from the
identity maps and the source group sizes, process each curve's slice of the
extruded-point mask. -/
def extrude_final {P Q : Type} (src : CurvesGeometry P Q)
    (points_to_extrude : List Nat) : ExtrudeAcc :=
  let init : ExtrudeAcc :=
    ⟨List.range src.points_num,
     List.replicate src.points_num false,
     (List.range src.curves_num).map
       (fun i => src.curve_offsets.getD (i + 1) 0 - src.curve_offsets.getD i 0),
     List.range src.curves_num,
     0⟩
  (List.range src.curves_num).foldl
    (fun acc curve_index =>
      let curve_points_first := src.curve_offsets.getD curve_index 0
      let curve_points_stop := src.curve_offsets.getD (curve_index + 1) 0
      let curve_points_to_extrude := points_to_extrude.filter
        (fun p => decide (curve_points_first ≤ p) && decide (p < curve_points_stop))
      curve_points_to_extrude.foldl
        (extrude_point_step curve_points_first (curve_points_stop - 1)
          (src.cyclic.get curve_index) curve_index)
        acc)
    init

/-- `extrude_grease_pencil_curves`: extrude the masked points of `src`.
End points of non-cyclic curves get a neighbouring copy inserted in place;
inner points (and every point of a cyclic curve) spawn a new two-point curve.
Curve and point attributes are gathered along the destination-to-source maps,
the `".selection"` attribute is overwritten with the new selection, and the
cyclic flags of the appended curves are reset to false unless the source
cyclic `VArray` is a single `false` (in which case the gathered values are
already all false). -/
def extrude_grease_pencil_curves {P Q : Type} [Inhabited P] [Inhabited Q]
    (src : CurvesGeometry P Q) (points_to_extrude : List Nat) : CurvesGeometry P Q :=
  let old_curves_num := src.curves_num
  let final := extrude_final src points_to_extrude
  let dst_cyclic_gathered := final.dst_to_src_curves.map src.cyclic.get
  let dst_cyclic :=
    if src.cyclic.get_if_single.getD true then
      dst_cyclic_gathered.take old_curves_num ++
        List.replicate (dst_cyclic_gathered.length - old_curves_num) false
    else dst_cyclic_gathered
  { curve_offsets := final.dst_curve_counts.scanl (· + ·) 0,
    cyclic := VArrayBool.span dst_cyclic,
    selection := final.dst_selected,
    point_attr := final.dst_to_src_points.map (fun j => src.point_attr.getD j default),
    curve_attr := final.dst_to_src_curves.map (fun j => src.curve_attr.getD j default) }

end GreasePencil

namespace GreasePencil

theorem getD_append_left {α : Type} (l l' : List α) (i : Nat) (d : α) (h : i < l.length) :
    (l ++ l').getD i d = l.getD i d := by
  rw [List.getD_eq_getElem?_getD, List.getD_eq_getElem?_getD, List.getElem?_append,
    if_pos h]

theorem getD_append_right {α : Type} (l l' : List α) (i : Nat) (d : α) (h : l.length ≤ i) :
    (l ++ l').getD i d = l'.getD (i - l.length) d := by
  rw [List.getD_eq_getElem?_getD, List.getD_eq_getElem?_getD, List.getElem?_append,
    if_neg (by omega)]

theorem getD_map_range {α : Type} (f : Nat → α) (n i : Nat) (d : α) (h : i < n) :
    ((List.range n).map f).getD i d = f i := by
  rw [List.getD_eq_getElem?_getD, List.getElem?_map, List.getElem?_range h]
  rfl

theorem getD_replicate_self {α : Type} (a : α) (m k : Nat) :
    (List.replicate m a).getD k a = a := by
  induction m generalizing k with
  | zero => rfl
  | succ m ih =>
    cases k with
    | zero => rfl
    | succ k => simpa [List.replicate] using ih k

theorem foldl_proj_suffix {σ α : Type} (proj : σ → List Nat) (f : σ → α → σ)
    (hstep : ∀ acc s, ∃ t, proj (f acc s) = proj acc ++ t) :
    ∀ (l : List α) (a : σ), ∃ T, proj (l.foldl f a) = proj a ++ T := by
  intro l
  induction l with
  | nil => exact fun a => ⟨[], by simp⟩
  | cons s rest ih =>
    intro a
    obtain ⟨t1, h1⟩ := hstep a s
    obtain ⟨T, hT⟩ := ih (f a s)
    exact ⟨t1 ++ T, by rw [List.foldl_cons, hT, h1, List.append_assoc]⟩

theorem extrude_point_step_curves_suffix (cf cl : Nat) (cyc : Bool) (ci : Nat)
    (acc : ExtrudeAcc) (p : Nat) :
    ∃ t, (extrude_point_step cf cl cyc ci acc p).dst_to_src_curves =
      acc.dst_to_src_curves ++ t := by
  unfold extrude_point_step
  by_cases h1 : (!cyc && decide (p = cf)) = true
  · exact ⟨[], by simp [h1]⟩
  · by_cases h2 : (!cyc && decide (p = cl)) = true
    · exact ⟨[], by simp [h1, h2]⟩
    · exact ⟨[ci], by simp [h1, h2]⟩

theorem extrude_final_curves_prefix {P Q : Type} (src : CurvesGeometry P Q)
    (mask : List Nat) :
    ∃ T, (extrude_final src mask).dst_to_src_curves = List.range src.curves_num ++ T := by
  have houter : ∀ (acc : ExtrudeAcc) (curve_index : Nat),
      ∃ t, ((mask.filter
          (fun p => decide (src.curve_offsets.getD curve_index 0 ≤ p) &&
            decide (p < src.curve_offsets.getD (curve_index + 1) 0))).foldl
          (extrude_point_step (src.curve_offsets.getD curve_index 0)
            (src.curve_offsets.getD (curve_index + 1) 0 - 1)
            (src.cyclic.get curve_index) curve_index)
          acc).dst_to_src_curves = acc.dst_to_src_curves ++ t := by
    intro acc curve_index
    exact foldl_proj_suffix (fun a => a.dst_to_src_curves) _
      (extrude_point_step_curves_suffix _ _ _ _) _ acc
  obtain ⟨T, hT⟩ := foldl_proj_suffix (fun a : ExtrudeAcc => a.dst_to_src_curves)
    (fun acc curve_index =>
      (mask.filter
          (fun p => decide (src.curve_offsets.getD curve_index 0 ≤ p) &&
            decide (p < src.curve_offsets.getD (curve_index + 1) 0))).foldl
        (extrude_point_step (src.curve_offsets.getD curve_index 0)
          (src.curve_offsets.getD (curve_index + 1) 0 - 1)
          (src.cyclic.get curve_index) curve_index)
        acc)
    (fun acc curve_index => houter acc curve_index)
    (List.range src.curves_num)
    ⟨List.range src.points_num,
     List.replicate src.points_num false,
     (List.range src.curves_num).map
       (fun i => src.curve_offsets.getD (i + 1) 0 - src.curve_offsets.getD i 0),
     List.range src.curves_num,
     0⟩
  exact ⟨T, hT⟩

end GreasePencil

namespace GreasePencil

theorem getD_map_const {α β : Type} (l : List α) (b : β) (i : Nat) :
    (l.map (fun _ => b)).getD i b = b := by
  induction l generalizing i with
  | nil => rfl
  | cons x t ih =>
    cases i with
    | zero => rfl
    | succ k => simpa using ih k

theorem VArrayBool.get_span (l : List Bool) (i : Nat) :
    (VArrayBool.span l).get i = l.getD i false := rfl

theorem extrude_cyclic_fill_spec (g : Nat → Bool) (old : Nat) (T : List Nat) :
    (∀ i, i < old →
      ((((List.range old ++ T).map g).take old ++
        List.replicate (((List.range old ++ T).map g).length - old) false).getD i false) =
        g i) ∧
    (∀ i, old ≤ i →
      ((((List.range old ++ T).map g).take old ++
        List.replicate (((List.range old ++ T).map g).length - old) false).getD i false) =
        false) := by
  have hl : ((List.range old).map g).length = old := by simp
  have htake : ((List.range old ++ T).map g).take old = (List.range old).map g := by
    rw [List.map_append]
    exact List.take_left' hl
  constructor
  · intro i hi
    rw [htake, getD_append_left _ _ i false (by simpa [hl] using hi),
      getD_map_range g old i false hi]
  · intro i hi
    rw [htake, getD_append_right _ _ i false (by simpa [hl] using hi)]
    exact getD_replicate_self false _ _

end GreasePencil

/-- C10: for every source curves geometry and extruded-point mask, all curves
that `extrude_grease_pencil_curves` adds beyond the original curve count (the
two-point curves created for extruded inner points) have their cyclic flag
false in the result, while the cyclic flags of the original curves are
preserved. -/
theorem C10_extrude_cyclic_flags {P Q : Type} [Inhabited P] [Inhabited Q]
    (src : GreasePencil.CurvesGeometry P Q) (mask : List Nat) :
    (∀ i, i < src.curves_num →
      (GreasePencil.extrude_grease_pencil_curves src mask).cyclic.get i =
        src.cyclic.get i) ∧
    (∀ i, src.curves_num ≤ i →
      (GreasePencil.extrude_grease_pencil_curves src mask).cyclic.get i = false) := by
  obtain ⟨T, hT⟩ := GreasePencil.extrude_final_curves_prefix src mask
  have hres : (GreasePencil.extrude_grease_pencil_curves src mask).cyclic =
      GreasePencil.VArrayBool.span
        (if src.cyclic.get_if_single.getD true then
          (((GreasePencil.extrude_final src mask).dst_to_src_curves.map
              src.cyclic.get).take src.curves_num ++
            List.replicate
              (((GreasePencil.extrude_final src mask).dst_to_src_curves.map
                src.cyclic.get).length - src.curves_num) false)
        else
          ((GreasePencil.extrude_final src mask).dst_to_src_curves.map
            src.cyclic.get)) := rfl
  by_cases hfill : src.cyclic.get_if_single.getD true = true
  · have hspec := GreasePencil.extrude_cyclic_fill_spec src.cyclic.get src.curves_num T
    constructor
    · intro i hi
      rw [hres, GreasePencil.VArrayBool.get_span, if_pos hfill, hT]
      exact hspec.1 i hi
    · intro i hi
      rw [hres, GreasePencil.VArrayBool.get_span, if_pos hfill, hT]
      exact hspec.2 i hi
  · have hsingle : src.cyclic.get_if_single = some false := by
      rcases h : src.cyclic with ⟨v, sz⟩ | ⟨vs⟩
      · rw [h] at hfill
        cases v with
        | false => rfl
        | true => exact absurd rfl hfill
      · rw [h] at hfill
        exact absurd rfl hfill
    rcases h : src.cyclic with ⟨v, sz⟩ | ⟨vs⟩
    · have hv : v = false := by
        rw [h] at hsingle
        simpa [GreasePencil.VArrayBool.get_if_single] using hsingle
      subst hv
      have hg : (GreasePencil.VArrayBool.single false sz).get = fun _ => false := rfl
      constructor
      · intro i hi
        rw [hres, h, GreasePencil.VArrayBool.get_span,
          if_neg (by simp [GreasePencil.VArrayBool.get_if_single]), hg]
        exact GreasePencil.getD_map_const _ false i
      · intro i hi
        rw [hres, h, GreasePencil.VArrayBool.get_span,
          if_neg (by simp [GreasePencil.VArrayBool.get_if_single]), hg]
        exact GreasePencil.getD_map_const _ false i
    · rw [h] at hsingle
      exact absurd hsingle (by simp [GreasePencil.VArrayBool.get_if_single])

/-- Witness input for C10: one non-cyclic three-point curve. -/
def c10_example : GreasePencil.CurvesGeometry Nat Nat :=
  ⟨[0, 3], GreasePencil.VArrayBool.span [true], [false, true, false],
   [10, 11, 12], [100]⟩

/-- Witness for C10: extruding the inner point 1 of `c10_example` appends a
two-point curve whose cyclic flag is false, while curve 0 keeps its flag. -/
theorem C10_witness :
    (0 < c10_example.curves_num ∧
      (GreasePencil.extrude_grease_pencil_curves c10_example [1]).cyclic.get 0 =
        c10_example.cyclic.get 0) ∧
    (c10_example.curves_num ≤ 1 ∧
      (GreasePencil.extrude_grease_pencil_curves c10_example [1]).cyclic.get 1 = false) :=
  ⟨⟨by decide, (C10_extrude_cyclic_flags c10_example [1]).1 0 (by decide)⟩,
   ⟨by decide, (C10_extrude_cyclic_flags c10_example [1]).2 1 (by decide)⟩⟩

namespace GreasePencil

/-- Operator return status. -/
inductive OpStatus where
  | OPERATOR_FINISHED
  | OPERATOR_CANCELLED
deriving DecidableEq, Repr

/-- The per-drawing state an editing operator touches.  The `*_mask` fields are
the results of the `retrieve_editable*` helpers (declared in
`ED_grease_pencil.hh`, outside the excerpt) for this drawing; `selection` is
the materialized `".selection"` lookup (all-true when the attribute is
absent, matching `lookup_or_default(.., true)`); `radii_is_single` /
`radii_is_span` / `opacities_is_span` describe the storage of the
corresponding `VArray`s. -/
structure GPDrawing (V : Type) where
  offsets : List Nat
  cyclic : List Bool
  has_cyclic_attr : Bool
  selection : List Bool
  positions : List V
  opacities : List V
  radii : List V
  radii_is_single : Bool
  radii_is_span : Bool
  opacities_is_span : Bool
  other_attrs : List V
  strokes_mask : List Nat
  points_mask : List Nat
  editable_strokes_mask : List Nat
  editable_points_mask : List Nat
deriving DecidableEq, Repr

instance {V : Type} : Inhabited (GPDrawing V) :=
  ⟨⟨[], [], false, [], [], [], [], false, false, false, [], [], [], [], []⟩⟩

def GPDrawing.points_num {V : Type} (d : GPDrawing V) : Nat := d.offsets.getLastD 0

def GPDrawing.curves_num {V : Type} (d : GPDrawing V) : Nat := d.offsets.length - 1

/-- Modelled from the spec: `retrieve_editable_drawings` and the
`threading::parallel_for_each` loop over them ("each operator reads
parameters, iterates editable drawings, ...").  `editable i` says whether
drawing `i` is in the retrieved editable set; the loop body `f` returns the
updated drawing and whether it wrote to it; the second component is the
operator's accumulated `changed` flag. -/
def map_editable_go {α : Type} (editable : Nat → Bool) (f : α → α × Bool) :
    Nat → List α → List α × Bool
  | _, [] => ([], false)
  | i, d :: rest =>
    let r := if editable i then f d else (d, false)
    let rest' := map_editable_go editable f (i + 1) rest
    (r.1 :: rest'.1, r.2 || rest'.2)

def map_editable {α : Type} (editable : Nat → Bool) (f : α → α × Bool)
    (ds : List α) : List α × Bool :=
  map_editable_go editable f 0 ds

/-- Whether some editable drawing satisfies `modified`. -/
def any_modified {α : Type} (modified : α → Bool) (editable : Nat → Bool) :
    Nat → List α → Bool
  | _, [] => false
  | i, d :: rest => (editable i && modified d) || any_modified modified editable (i + 1) rest

theorem map_editable_go_snd {α : Type} (editable : Nat → Bool) (f : α → α × Bool) :
    ∀ (i : Nat) (ds : List α),
      (map_editable_go editable f i ds).2 =
        any_modified (fun d => (f d).2) editable i ds := by
  intro i ds
  induction ds generalizing i with
  | nil => rfl
  | cons d rest ih =>
    show ((if editable i then f d else (d, false)).2 ||
        (map_editable_go editable f (i + 1) rest).2) = _
    rw [ih (i + 1)]
    cases h : editable i <;> simp [any_modified, h]

theorem any_modified_congr {α : Type} (f g : α → Bool) (editable : Nat → Bool)
    (h : ∀ d, f d = g d) :
    ∀ (i : Nat) (ds : List α),
      any_modified f editable i ds = any_modified g editable i ds := by
  intro i ds
  induction ds generalizing i with
  | nil => rfl
  | cons d rest ih => simp [any_modified, h d, ih (i + 1)]

theorem map_editable_go_fst_length {α : Type} (editable : Nat → Bool)
    (f : α → α × Bool) :
    ∀ (i : Nat) (ds : List α), (map_editable_go editable f i ds).1.length = ds.length := by
  intro i ds
  induction ds generalizing i with
  | nil => rfl
  | cons d rest ih => simp [map_editable_go, ih (i + 1)]

theorem map_editable_go_fst_getD {α : Type} [Inhabited α] (editable : Nat → Bool)
    (f : α → α × Bool) :
    ∀ (i : Nat) (ds : List α) (j : Nat), j < ds.length →
      (map_editable_go editable f i ds).1.getD j default =
        (if editable (i + j) then (f (ds.getD j default)).1 else ds.getD j default) := by
  intro i ds
  induction ds generalizing i with
  | nil =>
    intro j hj
    simp at hj
  | cons d rest ih =>
    intro j hj
    cases j with
    | zero =>
      show ((if editable i then f d else (d, false)).1 :: _).getD 0 default = _
      cases h : editable i <;> simp [Nat.add_zero, h]
    | succ j =>
      show ((if editable i then f d else (d, false)).1 ::
        (map_editable_go editable f (i + 1) rest).1).getD (j + 1) default = _
      have := ih (i + 1) j (by simpa using hj)
      simp only [List.getD_cons_succ, this]
      have harith : i + 1 + j = i + (j + 1) := by omega
      rw [harith]

end GreasePencil

namespace GreasePencil

/-- Whether point `p` belongs to one of the masked strokes
(`bke::curves::points_by_curve` membership). -/
def point_in_strokes (offsets : List Nat) (strokes : List Nat) (p : Nat) : Bool :=
  strokes.any (fun c =>
    decide (offsets.getD c 0 ≤ p) && decide (p < offsets.getD (c + 1) 0))

def smooth_apply {V : Type} (kernel : Nat → V → V) (inmask : Nat → Bool) :
    Nat → List V → List V
  | _, [] => []
  | p, v :: rest =>
    (if inmask p then kernel p v else v) :: smooth_apply kernel inmask (p + 1) rest

/-- Modelled from the spec: `geometry::smooth_curve_attribute` from the shared
curve-geometry library (`GEO_smooth_curves.hh`, not in the excerpt).  It
receives the stroke mask and rewrites only the points of the masked strokes;
the new value of such a point is produced by an arbitrary smoothing kernel
(folding in the iterations/influence/selection/cyclic parameters), which this
development quantifies over. -/
def smooth_curve_attribute {V : Type} (kernel : Nat → V → V)
    (strokes : List Nat) (offsets : List Nat) (values : List V) : List V :=
  smooth_apply kernel (point_in_strokes offsets strokes) 0 values

structure SmoothParams where
  smooth_position : Bool
  smooth_radius : Bool
  smooth_opacity : Bool
deriving DecidableEq, Repr

/-- The per-drawing body of `grease_pencil_stroke_smooth_exec`. -/
def smooth_step {V : Type} (params : SmoothParams)
    (kpos kop krad : Nat → V → V) (d : GPDrawing V) : GPDrawing V × Bool :=
  if d.points_num = 0 then (d, false)
  else if d.strokes_mask.isEmpty then (d, false)
  else
    let s1 := if params.smooth_position then
        ({ d with positions :=
            smooth_curve_attribute kpos d.strokes_mask d.offsets d.positions }, true)
      else (d, false)
    let s2 := if params.smooth_opacity && s1.1.opacities_is_span then
        ({ s1.1 with opacities :=
            smooth_curve_attribute kop s1.1.strokes_mask s1.1.offsets s1.1.opacities },
         true)
      else (s1.1, false)
    let s3 := if params.smooth_radius && s2.1.radii_is_span then
        ({ s2.1 with radii :=
            smooth_curve_attribute krad s2.1.strokes_mask s2.1.offsets s2.1.radii },
         true)
      else (s2.1, false)
    (s3.1, s1.2 || s2.2 || s3.2)

/-- The condition under which `grease_pencil_stroke_smooth_exec` writes to a
drawing. -/
def smooth_modified {V : Type} (params : SmoothParams) (d : GPDrawing V) : Bool :=
  !(decide (d.points_num = 0)) && !d.strokes_mask.isEmpty &&
    (params.smooth_position || params.smooth_opacity && d.opacities_is_span ||
      params.smooth_radius && d.radii_is_span)

/-- `grease_pencil_stroke_smooth_exec`: early-exit when nothing is to be
smoothed, otherwise smooth each editable drawing and notify (and tag the
geometry for re-evaluation) exactly when some drawing was written. -/
def grease_pencil_stroke_smooth_exec {V : Type} (params : SmoothParams)
    (kpos kop krad : Nat → V → V) (editable : Nat → Bool) (ds : List (GPDrawing V)) :
    List (GPDrawing V) × OpStatus × Bool :=
  if !(params.smooth_position || params.smooth_radius || params.smooth_opacity) then
    (ds, OpStatus.OPERATOR_FINISHED, false)
  else
    let r := map_editable editable (smooth_step params kpos kop krad) ds
    (r.1, OpStatus.OPERATOR_FINISHED, r.2)

theorem smooth_step_snd {V : Type} (params : SmoothParams)
    (kpos kop krad : Nat → V → V) (d : GPDrawing V) :
    (smooth_step params kpos kop krad d).2 = smooth_modified params d := by
  unfold smooth_step smooth_modified
  by_cases h0 : d.points_num = 0
  · simp [h0]
  · by_cases h1 : d.strokes_mask.isEmpty
    · simp [h0, h1]
    · by_cases hp : params.smooth_position <;>
        by_cases ho : params.smooth_opacity && d.opacities_is_span <;>
          by_cases hr : params.smooth_radius && d.radii_is_span <;>
            simp [h0, h1, hp, ho, hr]

end GreasePencil

namespace GreasePencil

theorem smooth_apply_getD_unmasked {V : Type} [Inhabited V] (kernel : Nat → V → V)
    (inmask : Nat → Bool) :
    ∀ (p0 : Nat) (vals : List V) (p : Nat), inmask (p0 + p) = false →
      (smooth_apply kernel inmask p0 vals).getD p default = vals.getD p default := by
  intro p0 vals
  induction vals generalizing p0 with
  | nil => intro p _; rfl
  | cons v rest ih =>
    intro p hp
    cases p with
    | zero =>
      have : inmask p0 = false := by simpa using hp
      simp [smooth_apply, this]
    | succ p =>
      have := ih (p0 + 1) p (by
        have harith : p0 + 1 + p = p0 + (p + 1) := by omega
        rw [harith]; exact hp)
      simpa [smooth_apply] using this

theorem smooth_curve_attribute_getD_unmasked {V : Type} [Inhabited V]
    (kernel : Nat → V → V) (strokes offsets : List Nat) (vals : List V) (p : Nat)
    (h : point_in_strokes offsets strokes p = false) :
    (smooth_curve_attribute kernel strokes offsets vals).getD p default =
      vals.getD p default := by
  have := smooth_apply_getD_unmasked kernel (point_in_strokes offsets strokes) 0 vals p
    (by simpa using h)
  simpa [smooth_curve_attribute] using this

theorem smooth_step_empty_mask {V : Type} (params : SmoothParams)
    (kpos kop krad : Nat → V → V) (d : GPDrawing V) (h : d.strokes_mask = []) :
    (smooth_step params kpos kop krad d).1 = d := by
  unfold smooth_step
  by_cases h0 : d.points_num = 0
  · simp [h0]
  · simp [h0, h]

theorem smooth_step_frame {V : Type} (params : SmoothParams)
    (kpos kop krad : Nat → V → V) (d : GPDrawing V) :
    (smooth_step params kpos kop krad d).1.offsets = d.offsets ∧
    (smooth_step params kpos kop krad d).1.cyclic = d.cyclic ∧
    (smooth_step params kpos kop krad d).1.has_cyclic_attr = d.has_cyclic_attr ∧
    (smooth_step params kpos kop krad d).1.selection = d.selection ∧
    (smooth_step params kpos kop krad d).1.other_attrs = d.other_attrs ∧
    (smooth_step params kpos kop krad d).1.strokes_mask = d.strokes_mask ∧
    (smooth_step params kpos kop krad d).1.points_mask = d.points_mask := by
  unfold smooth_step
  by_cases h0 : d.points_num = 0
  · simp [h0]
  · by_cases h1 : d.strokes_mask.isEmpty
    · simp [h0, h1]
    · by_cases hp : params.smooth_position <;>
        by_cases ho : params.smooth_opacity && d.opacities_is_span <;>
          by_cases hr : params.smooth_radius && d.radii_is_span <;>
            simp [h0, h1, hp, ho, hr]

theorem smooth_curve_attribute_getElem_unmasked {V : Type} [Inhabited V]
    (kernel : Nat → V → V) (strokes offsets : List Nat) (vals : List V) (p : Nat)
    (h : point_in_strokes offsets strokes p = false) :
    ((smooth_curve_attribute kernel strokes offsets vals)[p]?).getD default =
      (vals[p]?).getD default := by
  have := smooth_curve_attribute_getD_unmasked kernel strokes offsets vals p h
  rw [List.getD_eq_getElem?_getD, List.getD_eq_getElem?_getD] at this
  exact this

theorem smooth_step_unmasked {V : Type} [Inhabited V] (params : SmoothParams)
    (kpos kop krad : Nat → V → V) (d : GPDrawing V) (p : Nat)
    (h : point_in_strokes d.offsets d.strokes_mask p = false) :
    (smooth_step params kpos kop krad d).1.positions.getD p default =
      d.positions.getD p default ∧
    (smooth_step params kpos kop krad d).1.opacities.getD p default =
      d.opacities.getD p default ∧
    (smooth_step params kpos kop krad d).1.radii.getD p default =
      d.radii.getD p default := by
  unfold smooth_step
  by_cases h0 : d.points_num = 0
  · simp [h0]
  · by_cases h1 : d.strokes_mask.isEmpty
    · simp [h0, h1]
    · by_cases hp : params.smooth_position <;>
        by_cases ho : params.smooth_opacity && d.opacities_is_span <;>
          by_cases hr : params.smooth_radius && d.radii_is_span <;>
            simp [h0, h1, hp, ho, hr,
              smooth_curve_attribute_getD_unmasked _ _ _ _ _ h,
              smooth_curve_attribute_getElem_unmasked _ _ _ _ _ h]

end GreasePencil

/-- C5: the smooth-stroke operator modifies only editable drawings, and within
each such drawing only the position, radius and opacity point attributes of
points of the strokes in the editable-and-selected stroke mask; if none of
smooth_position / smooth_radius / smooth_opacity is enabled, or a drawing's
selected-stroke mask is empty, that drawing is left entirely unchanged, and
the operator always returns OPERATOR_FINISHED. -/
theorem C5_smooth_frame {V : Type} [Inhabited V] (params : GreasePencil.SmoothParams)
    (kpos kop krad : Nat → V → V) (editable : Nat → Bool)
    (ds : List (GreasePencil.GPDrawing V)) :
    ((GreasePencil.grease_pencil_stroke_smooth_exec params kpos kop krad editable ds).2.1 =
      GreasePencil.OpStatus.OPERATOR_FINISHED) ∧
    ((GreasePencil.grease_pencil_stroke_smooth_exec params kpos kop krad editable
      ds).1.length = ds.length) ∧
    (params.smooth_position = false → params.smooth_radius = false →
      params.smooth_opacity = false →
      (GreasePencil.grease_pencil_stroke_smooth_exec params kpos kop krad editable
        ds).1 = ds) ∧
    (∀ j, j < ds.length → editable j = false →
      (GreasePencil.grease_pencil_stroke_smooth_exec params kpos kop krad editable
        ds).1.getD j default = ds.getD j default) ∧
    (∀ j, j < ds.length → (ds.getD j default).strokes_mask = [] →
      (GreasePencil.grease_pencil_stroke_smooth_exec params kpos kop krad editable
        ds).1.getD j default = ds.getD j default) ∧
    (∀ j, j < ds.length →
      ((GreasePencil.grease_pencil_stroke_smooth_exec params kpos kop krad editable
          ds).1.getD j default).offsets = (ds.getD j default).offsets ∧
      ((GreasePencil.grease_pencil_stroke_smooth_exec params kpos kop krad editable
          ds).1.getD j default).cyclic = (ds.getD j default).cyclic ∧
      ((GreasePencil.grease_pencil_stroke_smooth_exec params kpos kop krad editable
          ds).1.getD j default).selection = (ds.getD j default).selection ∧
      ((GreasePencil.grease_pencil_stroke_smooth_exec params kpos kop krad editable
          ds).1.getD j default).other_attrs = (ds.getD j default).other_attrs) ∧
    (∀ j p, j < ds.length →
      GreasePencil.point_in_strokes (ds.getD j default).offsets
        (ds.getD j default).strokes_mask p = false →
      ((GreasePencil.grease_pencil_stroke_smooth_exec params kpos kop krad editable
          ds).1.getD j default).positions.getD p default =
        (ds.getD j default).positions.getD p default ∧
      ((GreasePencil.grease_pencil_stroke_smooth_exec params kpos kop krad editable
          ds).1.getD j default).opacities.getD p default =
        (ds.getD j default).opacities.getD p default ∧
      ((GreasePencil.grease_pencil_stroke_smooth_exec params kpos kop krad editable
          ds).1.getD j default).radii.getD p default =
        (ds.getD j default).radii.getD p default) := by
  by_cases hflags :
      (!(params.smooth_position || params.smooth_radius || params.smooth_opacity)) = true
  · have hexec : GreasePencil.grease_pencil_stroke_smooth_exec params kpos kop krad
        editable ds = (ds, GreasePencil.OpStatus.OPERATOR_FINISHED, false) := by
      unfold GreasePencil.grease_pencil_stroke_smooth_exec
      rw [if_pos hflags]
    rw [hexec]
    exact ⟨rfl, rfl, fun _ _ _ => rfl, fun _ _ _ => rfl, fun _ _ _ => rfl,
      fun _ _ => ⟨rfl, rfl, rfl, rfl⟩, fun _ _ _ _ => ⟨rfl, rfl, rfl⟩⟩
  · have hexec : GreasePencil.grease_pencil_stroke_smooth_exec params kpos kop krad
        editable ds =
        ((GreasePencil.map_editable editable
            (GreasePencil.smooth_step params kpos kop krad) ds).1,
          GreasePencil.OpStatus.OPERATOR_FINISHED,
          (GreasePencil.map_editable editable
            (GreasePencil.smooth_step params kpos kop krad) ds).2) := by
      unfold GreasePencil.grease_pencil_stroke_smooth_exec
      rw [if_neg hflags]
    rw [hexec]
    have hget : ∀ j, j < ds.length →
        (GreasePencil.map_editable editable
          (GreasePencil.smooth_step params kpos kop krad) ds).1.getD j default =
        (if editable j then
          (GreasePencil.smooth_step params kpos kop krad (ds.getD j default)).1
        else ds.getD j default) := by
      intro j hj
      have := GreasePencil.map_editable_go_fst_getD editable
        (GreasePencil.smooth_step params kpos kop krad) 0 ds j hj
      simpa [GreasePencil.map_editable] using this
    refine ⟨rfl, ?_, ?_, ?_, ?_, ?_, ?_⟩
    · exact GreasePencil.map_editable_go_fst_length editable _ 0 ds
    · intro hp hr ho
      exfalso
      rw [hp, hr, ho] at hflags
      exact hflags rfl
    · intro j hj hje
      rw [hget j hj, if_neg (by simp [hje])]
    · intro j hj hmask
      rw [hget j hj]
      by_cases hje : editable j = true
      · rw [if_pos hje]
        exact GreasePencil.smooth_step_empty_mask params kpos kop krad _ hmask
      · rw [if_neg hje]
    · intro j hj
      rw [hget j hj]
      by_cases hje : editable j = true
      · rw [if_pos hje]
        have hf := GreasePencil.smooth_step_frame params kpos kop krad (ds.getD j default)
        exact ⟨hf.1, hf.2.1, hf.2.2.2.1, hf.2.2.2.2.1⟩
      · rw [if_neg hje]
        exact ⟨rfl, rfl, rfl, rfl⟩
    · intro j p hj hpm
      rw [hget j hj]
      by_cases hje : editable j = true
      · rw [if_pos hje]
        exact GreasePencil.smooth_step_unmasked params kpos kop krad _ p hpm
      · rw [if_neg hje]
        exact ⟨rfl, rfl, rfl⟩

/-- Witness input for C5: one drawing with an empty selected-stroke mask. -/
def c5_example : GreasePencil.GPDrawing Nat :=
  ⟨[0, 2], [false], false, [true, true], [5, 6], [7, 8], [9, 10],
   false, true, true, [1, 2], [], [0, 1], [0], [0, 1]⟩

/-- Witness for C5: with an empty selected-stroke mask the drawing is left
unchanged. -/
theorem C5_witness :
    (0 : Nat) < [c5_example].length ∧
    (GreasePencil.grease_pencil_stroke_smooth_exec ⟨true, true, false⟩
      (fun _ v => v + 1) (fun _ v => v + 1) (fun _ v => v + 1)
      (fun _ => true) [c5_example]).1.getD 0 default = [c5_example].getD 0 default :=
  ⟨by decide,
   (C5_smooth_frame ⟨true, true, false⟩ (fun _ v => v + 1) (fun _ v => v + 1)
     (fun _ v => v + 1) (fun _ => true) [c5_example]).2.2.2.2.1 0 (by decide) (by decide)⟩

namespace GreasePencil

/-- Overwrite `k` entries of `a` starting at `s` with `v`
(`MutableSpan::slice(..).fill(..)`). -/
def set_range {α : Type} (a : List α) (s k : Nat) (v : α) : List α :=
  a.take s ++ List.replicate k v ++ a.drop (s + k)

/-- `bke::curves::fill_points`: fill the points of the masked curves. -/
def fill_points (offsets : List Nat) (strokes : List Nat) (v : Bool)
    (arr : List Bool) : List Bool :=
  strokes.foldl (fun a c =>
    set_range a (offsets.getD c 0) (offsets.getD (c + 1) 0 - offsets.getD c 0) v) arr

/-- `stroke_simplify` from the simplify operator.  `rdp` abstracts
`ramer_douglas_peucker_simplify` (float geometry, defined outside the
excerpt): given the absolute range and the current deletion flags it returns
the number of newly marked points and the updated flags; `last_segment_close`
abstracts the float comparison `dist_function(..) <= epsilon` for the cyclic
last segment. -/
def stroke_simplify (points_start points_size : Nat) (cyclic : Bool)
    (rdp : Nat × Nat → List Bool → Nat × List Bool)
    (last_segment_close : Bool) (points_to_delete : List Bool) : Nat × List Bool :=
  let curve_selection := (points_to_delete.drop points_start).take points_size
  if !(curve_selection.contains true) then (0, points_to_delete)
  else
    let is_last_segment_selected :=
      curve_selection.headD false && curve_selection.getLastD false
    let selection_ranges := find_all_ranges curve_selection true
    let folded := selection_ranges.foldl
      (fun (acc : Nat × List Bool) r =>
        let res := rdp (r.1 + points_start, r.2) acc.2
        (acc.1 + res.1, res.2)) (0, points_to_delete)
    if cyclic && decide (points_size > 2) && is_last_segment_selected &&
        last_segment_close then
      (folded.1 + 1, folded.2.set (points_start + points_size - 1) true)
    else folded

/-- The deletion-count computation of `grease_pencil_stroke_simplify_exec`:
mark all points of the selected strokes, then run the simplification per
stroke, with the distance function chosen by the storage of the radii
`VArray`. -/
def simplify_drawing_total {V : Type}
    (rdp_pos rdp_posrad : Nat × Nat → List Bool → Nat × List Bool)
    (lastclose : Nat → Bool) (d : GPDrawing V) : Nat × List Bool :=
  let ptd0 := fill_points d.offsets d.strokes_mask true
    (List.replicate d.points_num false)
  let fold := fun (rdp : Nat × Nat → List Bool → Nat × List Bool) =>
    d.strokes_mask.foldl (fun (acc : Nat × List Bool) c =>
      let r := stroke_simplify (d.offsets.getD c 0)
        (d.offsets.getD (c + 1) 0 - d.offsets.getD c 0)
        (d.cyclic.getD c false) rdp (lastclose c) acc.2
      (acc.1 + r.1, r.2)) (0, ptd0)
  if d.radii_is_single then fold rdp_pos
  else if d.radii_is_span then fold rdp_posrad
  else (0, ptd0)

def simplify_step {V : Type}
    (rdp_pos rdp_posrad : Nat × Nat → List Bool → Nat × List Bool)
    (lastclose : Nat → Bool) (remove_points : GPDrawing V → List Bool → GPDrawing V)
    (d : GPDrawing V) : GPDrawing V × Bool :=
  if d.points_num = 0 then (d, false)
  else if d.strokes_mask.isEmpty then (d, false)
  else
    let r := simplify_drawing_total rdp_pos rdp_posrad lastclose d
    if r.1 > 0 then (remove_points d r.2, true) else (d, false)

def simplify_modified {V : Type}
    (rdp_pos rdp_posrad : Nat × Nat → List Bool → Nat × List Bool)
    (lastclose : Nat → Bool) (d : GPDrawing V) : Bool :=
  !(decide (d.points_num = 0)) && !d.strokes_mask.isEmpty &&
    decide ((simplify_drawing_total rdp_pos rdp_posrad lastclose d).1 > 0)

def grease_pencil_stroke_simplify_exec {V : Type}
    (rdp_pos rdp_posrad : Nat × Nat → List Bool → Nat × List Bool)
    (lastclose : Nat → Bool) (remove_points : GPDrawing V → List Bool → GPDrawing V)
    (editable : Nat → Bool) (ds : List (GPDrawing V)) :
    List (GPDrawing V) × OpStatus × Bool :=
  let r := map_editable editable
    (simplify_step rdp_pos rdp_posrad lastclose remove_points) ds
  (r.1, OpStatus.OPERATOR_FINISHED, r.2)

/-- The value of `ED_grease_pencil_selection_domain_get`. -/
inductive SelectionDomain where
  | Point
  | Curve
deriving DecidableEq, Repr

def delete_step {V : Type} (selection_domain : SelectionDomain)
    (remove_curves : GPDrawing V → List Nat → GPDrawing V)
    (rps : GPDrawing V → List Nat → GPDrawing V) (d : GPDrawing V) :
    GPDrawing V × Bool :=
  let elements := if selection_domain = SelectionDomain.Curve then d.strokes_mask
    else d.points_mask
  if elements.isEmpty then (d, false)
  else if selection_domain = SelectionDomain.Curve then (remove_curves d elements, true)
  else (rps d elements, true)

def delete_modified {V : Type} (selection_domain : SelectionDomain)
    (d : GPDrawing V) : Bool :=
  !(if selection_domain = SelectionDomain.Curve then d.strokes_mask
    else d.points_mask).isEmpty

def grease_pencil_delete_exec {V : Type} (selection_domain : SelectionDomain)
    (remove_curves : GPDrawing V → List Nat → GPDrawing V)
    (rps : GPDrawing V → List Nat → GPDrawing V)
    (editable : Nat → Bool) (ds : List (GPDrawing V)) :
    List (GPDrawing V) × OpStatus × Bool :=
  let r := map_editable editable (delete_step selection_domain remove_curves rps) ds
  (r.1, OpStatus.OPERATOR_FINISHED, r.2)

inductive DissolveMode where
  | POINTS
  | BETWEEN
  | UNSELECT
deriving DecidableEq, Repr

/-- `get_points_to_dissolve` (the curve loop is parallel over curves; each
curve reads its own slice of the materialized selection before writing it, so
it is modelled as reading from the snapshot `ptd`). -/
def get_points_to_dissolve {V : Type} (d : GPDrawing V) (mask : List Nat)
    (mode : DissolveMode) : List Bool :=
  let ptd := mask.foldl (fun a p => a.set p (d.selection.getD p true))
    (List.replicate d.points_num false)
  if mode = DissolveMode.POINTS then ptd
  else
    let kept := (List.range d.curves_num).foldl (fun a c =>
      let s := d.offsets.getD c 0
      let k := d.offsets.getD (c + 1) 0 - s
      let curve_selection := (ptd.drop s).take k
      if !(curve_selection.contains true) then set_range a s k true
      else if mode ≠ DissolveMode.BETWEEN then a
      else
        let des := find_all_ranges curve_selection false
        if des.length ≠ 0 then
          let fr := des.headD (0, 0)
          let lr := des.getLastD (0, 0)
          let a1 := if fr.1 = 0 then set_range a (s + fr.1) fr.2 true else a
          if lr.1 + lr.2 - 1 = k - 1 then set_range a1 (s + lr.1) lr.2 true else a1
        else a) ptd
    kept.map (fun b => !b)

def dissolve_step {V : Type} (mode : DissolveMode)
    (remove_points : GPDrawing V → List Bool → GPDrawing V) (d : GPDrawing V) :
    GPDrawing V × Bool :=
  if d.points_num = 0 then (d, false)
  else if d.points_mask.isEmpty then (d, false)
  else
    let ptd := get_points_to_dissolve d d.points_mask mode
    if ptd.contains true then (remove_points d ptd, true) else (d, false)

def dissolve_modified {V : Type} (mode : DissolveMode) (d : GPDrawing V) : Bool :=
  !(decide (d.points_num = 0)) && !d.points_mask.isEmpty &&
    (get_points_to_dissolve d d.points_mask mode).contains true

def grease_pencil_dissolve_exec {V : Type} (mode : DissolveMode)
    (remove_points : GPDrawing V → List Bool → GPDrawing V)
    (editable : Nat → Bool) (ds : List (GPDrawing V)) :
    List (GPDrawing V) × OpStatus × Bool :=
  let r := map_editable editable (dissolve_step mode remove_points) ds
  (r.1, OpStatus.OPERATOR_FINISHED, r.2)

inductive CyclicalMode where
  | CLOSE
  | OPEN
  | TOGGLE
deriving DecidableEq, Repr

def masked_fill_bools (a : List Bool) (v : Bool) (mask : List Nat) : List Bool :=
  mask.foldl (fun l i => l.set i v) a

def invert_booleans_at (a : List Bool) (mask : List Nat) : List Bool :=
  mask.foldl (fun l i => l.set i (!(l.getD i false))) a

def cyclical_set_step {V : Type} (mode : CyclicalMode) (d : GPDrawing V) :
    GPDrawing V × Bool :=
  if mode = CyclicalMode.OPEN ∧ d.has_cyclic_attr = false then (d, false)
  else if d.strokes_mask.isEmpty then (d, false)
  else
    let cyc := match mode with
      | CyclicalMode.CLOSE => masked_fill_bools d.cyclic true d.strokes_mask
      | CyclicalMode.OPEN => masked_fill_bools d.cyclic false d.strokes_mask
      | CyclicalMode.TOGGLE => invert_booleans_at d.cyclic d.strokes_mask
    let d1 := { d with cyclic := cyc, has_cyclic_attr := true }
    let d2 := if mode ≠ CyclicalMode.CLOSE ∧ !(cyc.contains true) then
        { d1 with has_cyclic_attr := false }
      else d1
    (d2, true)

def cyclical_set_modified {V : Type} (mode : CyclicalMode) (d : GPDrawing V) : Bool :=
  !(decide (mode = CyclicalMode.OPEN) && !d.has_cyclic_attr) && !d.strokes_mask.isEmpty

def grease_pencil_cyclical_set_exec {V : Type} (mode : CyclicalMode)
    (editable : Nat → Bool) (ds : List (GPDrawing V)) :
    List (GPDrawing V) × OpStatus × Bool :=
  let r := map_editable editable (cyclical_set_step mode) ds
  (r.1, OpStatus.OPERATOR_FINISHED, r.2)

def switch_direction_step {V : Type}
    (reverse_curves : GPDrawing V → List Nat → GPDrawing V) (d : GPDrawing V) :
    GPDrawing V × Bool :=
  if d.strokes_mask.isEmpty then (d, false)
  else (reverse_curves d d.strokes_mask, true)

def switch_direction_modified {V : Type} (d : GPDrawing V) : Bool :=
  !d.strokes_mask.isEmpty

def grease_pencil_stroke_switch_direction_exec {V : Type}
    (reverse_curves : GPDrawing V → List Nat → GPDrawing V)
    (editable : Nat → Bool) (ds : List (GPDrawing V)) :
    List (GPDrawing V) × OpStatus × Bool :=
  let r := map_editable editable (switch_direction_step reverse_curves) ds
  (r.1, OpStatus.OPERATOR_FINISHED, r.2)

end GreasePencil

namespace GreasePencil

/-- The per-point cut counts of `gpencil_stroke_subdivide_exec`: uniform cuts
for curve-domain selection (or when `only_selected` is off), otherwise cuts
only between consecutive selected points, including the cyclic closing
segment. -/
def subdivide_vcuts {V : Type} (cuts : Nat) (only_selected : Bool)
    (selection_domain : SelectionDomain) (d : GPDrawing V) : List Nat :=
  if selection_domain = SelectionDomain.Curve ∨ only_selected = false then
    List.replicate d.points_num cuts
  else
    (List.range d.curves_num).foldl (fun a c =>
      let s := d.offsets.getD c 0
      let e := d.offsets.getD (c + 1) 0
      let a1 := (List.range' s (e - s - 1)).foldl (fun a2 point =>
        if d.selection.getD point true then
          (if d.selection.getD (point + 1) true then a2.set point cuts else a2)
        else a2) a
      if d.cyclic.getD c false then
        (if d.selection.getD s true && d.selection.getD (e - 1) true then
          a1.set (e - 1) cuts
        else a1)
      else a1) (List.replicate d.points_num 0)

def subdivide_step {V : Type} (cuts : Nat) (only_selected : Bool)
    (selection_domain : SelectionDomain)
    (subdivide_curves : GPDrawing V → List Nat → List Nat → GPDrawing V)
    (d : GPDrawing V) : GPDrawing V × Bool :=
  if d.strokes_mask.isEmpty then (d, false)
  else
    (subdivide_curves d d.strokes_mask
      (subdivide_vcuts cuts only_selected selection_domain d), true)

def subdivide_modified {V : Type} (d : GPDrawing V) : Bool :=
  !d.strokes_mask.isEmpty

def gpencil_stroke_subdivide_exec {V : Type} (cuts : Nat) (only_selected : Bool)
    (selection_domain : SelectionDomain)
    (subdivide_curves : GPDrawing V → List Nat → List Nat → GPDrawing V)
    (editable : Nat → Bool) (ds : List (GPDrawing V)) :
    List (GPDrawing V) × OpStatus × Bool :=
  let r := map_editable editable
    (subdivide_step cuts only_selected selection_domain subdivide_curves) ds
  (r.1, OpStatus.OPERATOR_FINISHED, r.2)

def reorder_step {V : Type} (direction : ReorderDirection)
    (reorder_geometry : GPDrawing V → List Nat → GPDrawing V) (d : GPDrawing V) :
    GPDrawing V × Bool :=
  if d.strokes_mask.isEmpty then (d, false)
  else if d.strokes_mask.length = d.curves_num then (d, false)
  else
    (reorder_geometry d
      (get_reordered_indices d.curves_num d.strokes_mask direction), true)

def reorder_modified {V : Type} (d : GPDrawing V) : Bool :=
  !d.strokes_mask.isEmpty && !(decide (d.strokes_mask.length = d.curves_num))

def grease_pencil_stroke_reorder_exec {V : Type} (direction : ReorderDirection)
    (reorder_geometry : GPDrawing V → List Nat → GPDrawing V)
    (editable : Nat → Bool) (ds : List (GPDrawing V)) :
    List (GPDrawing V) × OpStatus × Bool :=
  let r := map_editable editable (reorder_step direction reorder_geometry) ds
  (r.1, OpStatus.OPERATOR_FINISHED, r.2)

def merge_by_distance_step {V : Type} (use_unselected : Bool)
    (curves_merge_by_distance : GPDrawing V → List Nat → GPDrawing V)
    (d : GPDrawing V) : GPDrawing V × Bool :=
  let points := if use_unselected then d.editable_points_mask else d.points_mask
  if points.isEmpty then (d, false)
  else (curves_merge_by_distance d points, true)

def merge_by_distance_modified {V : Type} (use_unselected : Bool)
    (d : GPDrawing V) : Bool :=
  !(if use_unselected then d.editable_points_mask else d.points_mask).isEmpty

def grease_pencil_stroke_merge_by_distance_exec {V : Type} (use_unselected : Bool)
    (curves_merge_by_distance : GPDrawing V → List Nat → GPDrawing V)
    (editable : Nat → Bool) (ds : List (GPDrawing V)) :
    List (GPDrawing V) × OpStatus × Bool :=
  let r := map_editable editable
    (merge_by_distance_step use_unselected curves_merge_by_distance) ds
  (r.1, OpStatus.OPERATOR_FINISHED, r.2)

def extrude_step {V : Type}
    (extrude_curves : GPDrawing V → List Nat → GPDrawing V) (d : GPDrawing V) :
    GPDrawing V × Bool :=
  if d.points_mask.isEmpty then (d, false)
  else (extrude_curves d d.points_mask, true)

def extrude_modified {V : Type} (d : GPDrawing V) : Bool :=
  !d.points_mask.isEmpty

def grease_pencil_extrude_exec {V : Type}
    (extrude_curves : GPDrawing V → List Nat → GPDrawing V)
    (editable : Nat → Bool) (ds : List (GPDrawing V)) :
    List (GPDrawing V) × OpStatus × Bool :=
  let r := map_editable editable (extrude_step extrude_curves) ds
  (r.1, OpStatus.OPERATOR_FINISHED, r.2)

def clean_loose_step {V : Type} (limit : Nat)
    (remove_curves : GPDrawing V → List Nat → GPDrawing V) (d : GPDrawing V) :
    GPDrawing V × Bool :=
  let curves_to_delete := d.editable_strokes_mask.filter
    (fun c => decide (d.offsets.getD (c + 1) 0 - d.offsets.getD c 0 ≤ limit))
  (remove_curves d curves_to_delete, true)

/-- `grease_pencil_clean_loose_exec`: removes the editable strokes of at most
`limit` points from every editable drawing and tags/notifies unconditionally. -/
def grease_pencil_clean_loose_exec {V : Type} (limit : Nat)
    (remove_curves : GPDrawing V → List Nat → GPDrawing V)
    (editable : Nat → Bool) (ds : List (GPDrawing V)) :
    List (GPDrawing V) × OpStatus × Bool :=
  let r := map_editable editable (clean_loose_step limit remove_curves) ds
  (r.1, OpStatus.OPERATOR_FINISHED, true)

end GreasePencil

namespace GreasePencil

theorem any_modified_false {α : Type} (editable : Nat → Bool) :
    ∀ (i : Nat) (ds : List α), any_modified (fun _ => false) editable i ds = false := by
  intro i ds
  induction ds generalizing i with
  | nil => rfl
  | cons d rest ih => simp [any_modified, ih (i + 1)]

theorem map_editable_notify {α : Type} (editable : Nat → Bool) (f : α → α × Bool)
    (modified : α → Bool) (h : ∀ d, (f d).2 = modified d) (ds : List α) :
    (map_editable editable f ds).2 = any_modified modified editable 0 ds := by
  rw [map_editable, map_editable_go_snd]
  exact any_modified_congr _ _ editable h 0 ds

theorem simplify_step_snd {V : Type}
    (rdp_pos rdp_posrad : Nat × Nat → List Bool → Nat × List Bool)
    (lastclose : Nat → Bool) (remove_points : GPDrawing V → List Bool → GPDrawing V)
    (d : GPDrawing V) :
    (simplify_step rdp_pos rdp_posrad lastclose remove_points d).2 =
      simplify_modified rdp_pos rdp_posrad lastclose d := by
  unfold simplify_step simplify_modified
  by_cases h0 : d.points_num = 0
  · simp [h0]
  · by_cases h1 : d.strokes_mask.isEmpty
    · simp [h0, h1]
    · by_cases ht : (simplify_drawing_total rdp_pos rdp_posrad lastclose d).1 > 0 <;>
        simp [h0, h1, ht]

theorem delete_step_snd {V : Type} (selection_domain : SelectionDomain)
    (remove_curves : GPDrawing V → List Nat → GPDrawing V)
    (rps : GPDrawing V → List Nat → GPDrawing V) (d : GPDrawing V) :
    (delete_step selection_domain remove_curves rps d).2 =
      delete_modified selection_domain d := by
  unfold delete_step delete_modified
  by_cases hd : selection_domain = SelectionDomain.Curve
  · by_cases he : d.strokes_mask.isEmpty <;> simp [hd, he]
  · by_cases he : d.points_mask.isEmpty <;> simp [hd, he]

theorem dissolve_step_snd {V : Type} (mode : DissolveMode)
    (remove_points : GPDrawing V → List Bool → GPDrawing V) (d : GPDrawing V) :
    (dissolve_step mode remove_points d).2 = dissolve_modified mode d := by
  unfold dissolve_step dissolve_modified
  by_cases h0 : d.points_num = 0
  · simp [h0]
  · by_cases h1 : d.points_mask.isEmpty
    · simp [h0, h1]
    · by_cases hc : true ∈ get_points_to_dissolve d d.points_mask mode <;>
        simp [h0, h1, hc]

theorem cyclical_set_step_snd {V : Type} (mode : CyclicalMode) (d : GPDrawing V) :
    (cyclical_set_step mode d).2 = cyclical_set_modified mode d := by
  unfold cyclical_set_step cyclical_set_modified
  by_cases hg : mode = CyclicalMode.OPEN ∧ d.has_cyclic_attr = false
  · simp [hg, hg.1, hg.2]
  · by_cases h1 : d.strokes_mask.isEmpty
    · by_cases hm : mode = CyclicalMode.OPEN
      · have hattr : d.has_cyclic_attr = true := by
          cases h : d.has_cyclic_attr
          · exact absurd ⟨hm, h⟩ hg
          · rfl
        simp [hg, h1, hm, hattr]
      · simp [hg, h1, hm]
    · by_cases hm : mode = CyclicalMode.OPEN
      · have hattr : d.has_cyclic_attr = true := by
          cases h : d.has_cyclic_attr
          · exact absurd ⟨hm, h⟩ hg
          · rfl
        simp [hg, h1, hm, hattr]
      · simp [hg, h1, hm]

theorem switch_direction_step_snd {V : Type}
    (reverse_curves : GPDrawing V → List Nat → GPDrawing V) (d : GPDrawing V) :
    (switch_direction_step reverse_curves d).2 = switch_direction_modified d := by
  unfold switch_direction_step switch_direction_modified
  by_cases h1 : d.strokes_mask.isEmpty <;> simp [h1]

theorem subdivide_step_snd {V : Type} (cuts : Nat) (only_selected : Bool)
    (selection_domain : SelectionDomain)
    (subdivide_curves : GPDrawing V → List Nat → List Nat → GPDrawing V)
    (d : GPDrawing V) :
    (subdivide_step cuts only_selected selection_domain subdivide_curves d).2 =
      subdivide_modified d := by
  unfold subdivide_step subdivide_modified
  by_cases h1 : d.strokes_mask.isEmpty <;> simp [h1]

theorem reorder_step_snd {V : Type} (direction : ReorderDirection)
    (reorder_geometry : GPDrawing V → List Nat → GPDrawing V) (d : GPDrawing V) :
    (reorder_step direction reorder_geometry d).2 = reorder_modified d := by
  unfold reorder_step reorder_modified
  by_cases h1 : d.strokes_mask.isEmpty
  · simp [h1]
  · by_cases h2 : d.strokes_mask.length = d.curves_num <;> simp [h1, h2]

theorem merge_by_distance_step_snd {V : Type} (use_unselected : Bool)
    (curves_merge_by_distance : GPDrawing V → List Nat → GPDrawing V)
    (d : GPDrawing V) :
    (merge_by_distance_step use_unselected curves_merge_by_distance d).2 =
      merge_by_distance_modified use_unselected d := by
  unfold merge_by_distance_step merge_by_distance_modified
  by_cases hu : use_unselected
  · by_cases h1 : d.editable_points_mask.isEmpty <;> simp [hu, h1]
  · by_cases h1 : d.points_mask.isEmpty <;> simp [hu, h1]

theorem extrude_step_snd {V : Type}
    (extrude_curves : GPDrawing V → List Nat → GPDrawing V) (d : GPDrawing V) :
    (extrude_step extrude_curves d).2 = extrude_modified d := by
  unfold extrude_step extrude_modified
  by_cases h1 : d.points_mask.isEmpty <;> simp [h1]

end GreasePencil

/-- C4: each of the smooth, simplify, delete, dissolve, cyclical-set,
switch-direction, subdivide, reorder, merge-by-distance and extrude operator
exec functions fires its change notification and geometry re-evaluation tag
(the third output component, guarding both `WM_event_add_notifier` and
`DEG_id_tag_update` in the source) exactly when at least one editable drawing
was written; `grease_pencil_clean_loose_exec` notifies unconditionally, so it
notifies in particular whenever it modified a drawing. -/
theorem C4_notify_iff_changed :
    (∀ (V : Type) (params : GreasePencil.SmoothParams) (kpos kop krad : Nat → V → V)
        (editable : Nat → Bool) (ds : List (GreasePencil.GPDrawing V)),
      (GreasePencil.grease_pencil_stroke_smooth_exec params kpos kop krad
          editable ds).2.2 =
        GreasePencil.any_modified (GreasePencil.smooth_modified params) editable 0 ds) ∧
    (∀ (V : Type) (rdp_pos rdp_posrad : Nat × Nat → List Bool → Nat × List Bool)
        (lastclose : Nat → Bool)
        (remove_points : GreasePencil.GPDrawing V → List Bool → GreasePencil.GPDrawing V)
        (editable : Nat → Bool) (ds : List (GreasePencil.GPDrawing V)),
      (GreasePencil.grease_pencil_stroke_simplify_exec rdp_pos rdp_posrad lastclose
          remove_points editable ds).2.2 =
        GreasePencil.any_modified
          (GreasePencil.simplify_modified rdp_pos rdp_posrad lastclose) editable 0 ds) ∧
    (∀ (V : Type) (selection_domain : GreasePencil.SelectionDomain)
        (remove_curves rps : GreasePencil.GPDrawing V → List Nat → GreasePencil.GPDrawing V)
        (editable : Nat → Bool) (ds : List (GreasePencil.GPDrawing V)),
      (GreasePencil.grease_pencil_delete_exec selection_domain remove_curves rps
          editable ds).2.2 =
        GreasePencil.any_modified (GreasePencil.delete_modified selection_domain)
          editable 0 ds) ∧
    (∀ (V : Type) (mode : GreasePencil.DissolveMode)
        (remove_points : GreasePencil.GPDrawing V → List Bool → GreasePencil.GPDrawing V)
        (editable : Nat → Bool) (ds : List (GreasePencil.GPDrawing V)),
      (GreasePencil.grease_pencil_dissolve_exec mode remove_points editable ds).2.2 =
        GreasePencil.any_modified (GreasePencil.dissolve_modified mode) editable 0 ds) ∧
    (∀ (V : Type) (mode : GreasePencil.CyclicalMode)
        (editable : Nat → Bool) (ds : List (GreasePencil.GPDrawing V)),
      (GreasePencil.grease_pencil_cyclical_set_exec mode editable ds).2.2 =
        GreasePencil.any_modified (GreasePencil.cyclical_set_modified mode)
          editable 0 ds) ∧
    (∀ (V : Type)
        (reverse_curves : GreasePencil.GPDrawing V → List Nat → GreasePencil.GPDrawing V)
        (editable : Nat → Bool) (ds : List (GreasePencil.GPDrawing V)),
      (GreasePencil.grease_pencil_stroke_switch_direction_exec reverse_curves
          editable ds).2.2 =
        GreasePencil.any_modified GreasePencil.switch_direction_modified editable 0 ds) ∧
    (∀ (V : Type) (cuts : Nat) (only_selected : Bool)
        (selection_domain : GreasePencil.SelectionDomain)
        (subdivide_curves :
          GreasePencil.GPDrawing V → List Nat → List Nat → GreasePencil.GPDrawing V)
        (editable : Nat → Bool) (ds : List (GreasePencil.GPDrawing V)),
      (GreasePencil.gpencil_stroke_subdivide_exec cuts only_selected selection_domain
          subdivide_curves editable ds).2.2 =
        GreasePencil.any_modified GreasePencil.subdivide_modified editable 0 ds) ∧
    (∀ (V : Type) (direction : GreasePencil.ReorderDirection)
        (reorder_geometry : GreasePencil.GPDrawing V → List Nat → GreasePencil.GPDrawing V)
        (editable : Nat → Bool) (ds : List (GreasePencil.GPDrawing V)),
      (GreasePencil.grease_pencil_stroke_reorder_exec direction reorder_geometry
          editable ds).2.2 =
        GreasePencil.any_modified GreasePencil.reorder_modified editable 0 ds) ∧
    (∀ (V : Type) (use_unselected : Bool)
        (curves_merge_by_distance :
          GreasePencil.GPDrawing V → List Nat → GreasePencil.GPDrawing V)
        (editable : Nat → Bool) (ds : List (GreasePencil.GPDrawing V)),
      (GreasePencil.grease_pencil_stroke_merge_by_distance_exec use_unselected
          curves_merge_by_distance editable ds).2.2 =
        GreasePencil.any_modified
          (GreasePencil.merge_by_distance_modified use_unselected) editable 0 ds) ∧
    (∀ (V : Type)
        (extrude_curves : GreasePencil.GPDrawing V → List Nat → GreasePencil.GPDrawing V)
        (editable : Nat → Bool) (ds : List (GreasePencil.GPDrawing V)),
      (GreasePencil.grease_pencil_extrude_exec extrude_curves editable ds).2.2 =
        GreasePencil.any_modified GreasePencil.extrude_modified editable 0 ds) ∧
    (∀ (V : Type) (limit : Nat)
        (remove_curves : GreasePencil.GPDrawing V → List Nat → GreasePencil.GPDrawing V)
        (editable : Nat → Bool) (ds : List (GreasePencil.GPDrawing V)),
      (GreasePencil.grease_pencil_clean_loose_exec limit remove_curves
          editable ds).2.2 = true) := by
  refine ⟨?_, ?_, ?_, ?_, ?_, ?_, ?_, ?_, ?_, ?_, ?_⟩
  · intro V params kpos kop krad editable ds
    by_cases hflags :
        (!(params.smooth_position || params.smooth_radius || params.smooth_opacity)) = true
    · have hor : (params.smooth_position || params.smooth_radius ||
          params.smooth_opacity) = false := by
        cases h : params.smooth_position || params.smooth_radius ||
          params.smooth_opacity
        · rfl
        · rw [h] at hflags; exact absurd hflags (by simp)
      have hp : params.smooth_position = false := by
        cases h : params.smooth_position
        · rfl
        · rw [h] at hor; simp at hor
      have hr : params.smooth_radius = false := by
        cases h : params.smooth_radius
        · rfl
        · rw [h] at hor; simp at hor
      have ho : params.smooth_opacity = false := by
        cases h : params.smooth_opacity
        · rfl
        · rw [h] at hor; simp at hor
      have hexec : (GreasePencil.grease_pencil_stroke_smooth_exec params kpos kop krad
          editable ds).2.2 = false := by
        unfold GreasePencil.grease_pencil_stroke_smooth_exec
        rw [if_pos hflags]
      rw [hexec,
        GreasePencil.any_modified_congr (GreasePencil.smooth_modified params)
          (fun _ => false) editable
          (fun d => by simp [GreasePencil.smooth_modified, hp, hr, ho]) 0 ds,
        GreasePencil.any_modified_false]
    · have hexec : (GreasePencil.grease_pencil_stroke_smooth_exec params kpos kop krad
          editable ds).2.2 =
          (GreasePencil.map_editable editable
            (GreasePencil.smooth_step params kpos kop krad) ds).2 := by
        unfold GreasePencil.grease_pencil_stroke_smooth_exec
        rw [if_neg hflags]
      rw [hexec]
      exact GreasePencil.map_editable_notify editable _ _
        (GreasePencil.smooth_step_snd params kpos kop krad) ds
  · intro V rdp_pos rdp_posrad lastclose remove_points editable ds
    exact GreasePencil.map_editable_notify editable _ _
      (GreasePencil.simplify_step_snd rdp_pos rdp_posrad lastclose remove_points) ds
  · intro V selection_domain remove_curves rps editable ds
    exact GreasePencil.map_editable_notify editable _ _
      (GreasePencil.delete_step_snd selection_domain remove_curves rps) ds
  · intro V mode remove_points editable ds
    exact GreasePencil.map_editable_notify editable _ _
      (GreasePencil.dissolve_step_snd mode remove_points) ds
  · intro V mode editable ds
    exact GreasePencil.map_editable_notify editable _ _
      (GreasePencil.cyclical_set_step_snd mode) ds
  · intro V reverse_curves editable ds
    exact GreasePencil.map_editable_notify editable _ _
      (GreasePencil.switch_direction_step_snd reverse_curves) ds
  · intro V cuts only_selected selection_domain subdivide_curves editable ds
    exact GreasePencil.map_editable_notify editable _ _
      (GreasePencil.subdivide_step_snd cuts only_selected selection_domain
        subdivide_curves) ds
  · intro V direction reorder_geometry editable ds
    exact GreasePencil.map_editable_notify editable _ _
      (GreasePencil.reorder_step_snd direction reorder_geometry) ds
  · intro V use_unselected curves_merge_by_distance editable ds
    exact GreasePencil.map_editable_notify editable _ _
      (GreasePencil.merge_by_distance_step_snd use_unselected
        curves_merge_by_distance) ds
  · intro V extrude_curves editable ds
    exact GreasePencil.map_editable_notify editable _ _
      (GreasePencil.extrude_step_snd extrude_curves) ds
  · intro V limit remove_curves editable ds
    rfl
